import Mathlib

namespace BioSim

/-!
A verification model of `bio_sim.py`

A shallow embedding of the SimPy biological simulation in `bio_sim.py`:
a Forest process running the day/night cycle over a shared food container,
and, per Blob, a `sleep` process and a `hunt` process coupled through
SimPy's interrupt mechanism.

The SimPy kernel is deterministic: events are dispatched in increasing
order of (time, priority, event id).  In this program the only events that
stay pending across logical instants are NORMAL-priority timeouts; URGENT
events (process initialization, interrupt delivery) and immediately
triggered container put/get events run at the instant they are created and
interleave with pending events in a fixed order, which this model folds
into the dispatch of the event that created them, preserving the relative
dispatch order of all pending timeouts (event ids are allocated in creation
order, exactly as SimPy allocates them).  Randomness (`time_to_food`, which
calls `random.randint(1, int(DAYLIGHT))`) is modelled as an injected stream
`str : Nat → Nat` of sampled durations, consumed in execution order.
-/


/-! ## Configuration constants (module level constants of `bio_sim.py`) -/

/-- Number of Blobs populating the environment. -/
def NUM_BLOB : Nat := 100

/-- Average time to find food (only used by the commented-out sampler). -/
def TIME_TO_EAT : Nat := 120

/-- Rest interval after eating before hunting again. -/
def TIME_AFTER_EAT : Nat := 20

/-- Starting food availability in the environment. -/
def INITIAL_FOOD : Int := 70

/-- Food produced by the environment each day. -/
def FODD_RATE_PRODUCTION : Int := 70

/-- Minutes in a day. -/
def DAY : Nat := 1440

/-- Time period during which blobs are active (`DAY/2`). -/
def DAYLIGHT : Nat := DAY / 2

/-- Blobs sleep during night (`DAY - DAYLIGHT`). -/
def NIGHTTIME : Nat := DAY - DAYLIGHT

/-- Number of days of simulation. -/
def NUM_DAYS : Nat := 2

/-- `env.run(until=NUM_DAYS*1440)`: events at or after this time are not
dispatched (SimPy's `until` event carries an earlier event id, so it fires
first at that instant and stops the run). -/
def simHorizon : Nat := NUM_DAYS * 1440

/-! ## The food container (`simpy.Container(env, init=INITIAL_FOOD)`)

The source passes no `capacity`, so the capacity is SimPy's default
`float('inf')`, modelled as `none`.  A `get(amount)` whose amount exceeds
the current level parks the requesting process on a FIFO wait queue that is
re-examined after each `put`. -/

structure Container where
  /-- `none` models the default unbounded capacity `float('inf')`. -/
  capacity : Option Int
  level : Int
  /-- FIFO queue of processes blocked on `get(1)`: (blob index, hunt token). -/
  getWaiters : List (Nat × Nat)
deriving Repr, DecidableEq

/-- Whether a `put` of `amt` fits (SimPy parks the putter otherwise). -/
def Container.putOk (c : Container) (amt : Int) : Bool :=
  match c.capacity with
  | none => true
  | some cap => decide (c.level + amt ≤ cap)

/-- After a `put`, SimPy re-evaluates the queued `get(1)` requests in FIFO
order, fulfilling them greedily while stock remains.  Returns the new
level, the still-blocked waiters, and the fulfilled waiters in order. -/
def serviceGets : Int → List (Nat × Nat) → Int × List (Nat × Nat) × List (Nat × Nat)
  | lvl, [] => (lvl, [], [])
  | lvl, w :: ws =>
    if 1 ≤ lvl then
      let r := serviceGets (lvl - 1) ws
      (r.1, r.2.1, w :: r.2.2)
    else (lvl, w :: ws, [])

/-! ## Blob state (`Blob.__init__`) -/

structure BlobState where
  /-- Denotes the Blob's state: alive or dead. -/
  alive : Bool := true
  /-- Denotes if the Blob is searching for food (`self.isHunting`). -/
  isHunting : Bool := true
  /-- Minimum food to eat per day to survive. -/
  food_requirements : Nat := 1
  /-- Amount of food eaten during the current day. -/
  food_eaten : Nat := 0
  /-- Generation counter for the hunt process's pending timer; an
  interrupt bumps it, invalidating the timer it preempts (SimPy
  deschedules the interrupted process from its pending event). -/
  huntTok : Nat := 0
  /-- The hunt generator has returned (its `while self.alive` saw `False`). -/
  huntDone : Bool := false
  /-- The hunt process is parked on the container's blocking `get` queue. -/
  huntBlocked : Bool := false
deriving Repr, DecidableEq

/-! ## Events

Each pending timeout resumes a specific continuation point of one of the
processes; the `Target` names that continuation point. -/

inductive Target where
  /-- `day_cycle` resumes after `timeout(DAYLIGHT)`: night begins. -/
  | sunset
  /-- `day_cycle` resumes after `yield env.process(self.food_growth(env))`. -/
  | growthDone
  /-- `day_cycle` resumes after `timeout(NIGHTTIME)`: a new day begins. -/
  | dayStart
  /-- `sleep` of blob `i` resumes after `timeout(DAYLIGHT)`. -/
  | sleepWake (i : Nat)
  /-- `hunt` of blob `i` resumes after `timeout(time_to_food())`. -/
  | huntForaged (i : Nat) (tok : Nat)
  /-- `hunt` of blob `i` resumes at its `while` head, after
  `timeout(TIME_AFTER_EAT)` or after the `timeout(NIGHTTIME)` of the
  interrupt handler. -/
  | huntLoop (i : Nat) (tok : Nat)
  /-- `hunt` of blob `i` resumes after a blocking `get(1)` is serviced. -/
  | huntGot (i : Nat) (tok : Nat)
deriving Repr, DecidableEq

structure Ev where
  time : Nat
  eid : Nat
  tgt : Target
deriving Repr, DecidableEq

/-- Dispatch order of pending events: by time, ties broken by event id. -/
def evR (a b : Ev) : Prop := a.time < b.time ∨ (a.time = b.time ∧ a.eid < b.eid)

instance : DecidablePred fun p : Ev × Ev => evR p.1 p.2 := fun p => by
  unfold evR; infer_instance

/-- Insert an event into the queue.  Fresh events carry the largest event
id so far, so they are placed after every pending event of the same time. -/
def insertEv (e : Ev) : List Ev → List Ev
  | [] => [e]
  | h :: t => if e.time < h.time then e :: h :: t else h :: insertEv e t

/-! ## The global simulation state -/

structure SimState where
  time : Nat
  nextEid : Nat
  queue : List Ev
  food : Container
  blobs : Nat → BlobState
  /-- Next index of the `time_to_food` sample stream to consume. -/
  sampleIdx : Nat
  /-- An unguarded runtime error occurred (interrupting a dead process). -/
  crashed : Bool

/-- Schedule a timeout `delay` from now, allocating the next event id. -/
def schedule (s : SimState) (delay : Nat) (tgt : Target) : SimState :=
  { s with queue := insertEv ⟨s.time + delay, s.nextEid, tgt⟩ s.queue,
           nextEid := s.nextEid + 1 }

/-- Update the state of blob `i`. -/
def setBlob (s : SimState) (i : Nat) (b : BlobState) : SimState :=
  { s with blobs := fun j => if j = i then b else s.blobs j }

/-! ## Process bodies -/

/-- `Forest.day_cycle` resumes at sunset: `food_growth` runs, performing a
single `put(FODD_RATE_PRODUCTION)`; the put is immediately triggered
(capacity is unbounded), the level changes at once, and queued getters are
then serviced in FIFO order.  The resumption of `day_cycle` itself is the
`growthDone` event at the same instant. -/
def doSunset (s : SimState) : SimState :=
  if s.food.putOk FODD_RATE_PRODUCTION then
    let r := serviceGets (s.food.level + FODD_RATE_PRODUCTION) s.food.getWaiters
    let s1 := { s with food := ⟨s.food.capacity, r.1, r.2.1⟩ }
    let s2 := schedule s1 0 Target.growthDone
    r.2.2.foldl (fun acc w => schedule acc 0 (Target.huntGot w.1 w.2)) s2
  else s

/-- `day_cycle` after `food_growth`: `yield env.timeout(NIGHTTIME)`. -/
def doGrowthDone (s : SimState) : SimState :=
  schedule s NIGHTTIME Target.dayStart

/-- `day_cycle` at the top of its loop: `yield env.timeout(DAYLIGHT)`. -/
def doDayStart (s : SimState) : SimState :=
  schedule s DAYLIGHT Target.sunset

/-- The head of `Blob.hunt`'s loop: `while self.alive:` then
`self.isHunting = True` and `yield env.timeout(time_to_food())`.  On
`alive = False` the generator returns and the process terminates. -/
def huntLoopHead (str : Nat → Nat) (i : Nat) (s : SimState) : SimState :=
  let b := s.blobs i
  if b.alive then
    let d := str s.sampleIdx
    let s1 := setBlob { s with sampleIdx := s.sampleIdx + 1 } i { b with isHunting := true }
    schedule s1 d (Target.huntForaged i b.huntTok)
  else
    setBlob s i { b with huntDone := true }

/-- `Blob.hunt` resumes after its foraging timeout: if `level > 0`, a
`get(1)` is issued; the get is immediately fulfilled when `1 ≤ level`
(the level changes at the call), `food_eaten` is incremented, and the blob
naps for `TIME_AFTER_EAT`; an unfulfillable get parks the process on the
container's FIFO queue.  If `level == 0` the attempt is skipped (`pass`)
and control falls through to the loop head at the same instant. -/
def doHuntForaged (str : Nat → Nat) (i tok : Nat) (s : SimState) : SimState :=
  let b := s.blobs i
  if tok ≠ b.huntTok then s
  else if 0 < s.food.level then
    if 1 ≤ s.food.level then
      let s1 := { s with food := ⟨s.food.capacity, s.food.level - 1, s.food.getWaiters⟩ }
      let s2 := setBlob s1 i { b with food_eaten := b.food_eaten + 1 }
      schedule s2 TIME_AFTER_EAT (Target.huntLoop i tok)
    else
      let s1 := { s with
        food := ⟨s.food.capacity, s.food.level, s.food.getWaiters ++ [(i, tok)]⟩ }
      setBlob s1 i { b with huntBlocked := true }
  else
    huntLoopHead str i s

/-- `Blob.hunt` resumes at its loop head (after a nap or after the
nighttime sleep of the interrupt handler). -/
def doHuntLoop (str : Nat → Nat) (i tok : Nat) (s : SimState) : SimState :=
  if tok ≠ (s.blobs i).huntTok then s else huntLoopHead str i s

/-- `Blob.hunt` resumes after a blocking `get(1)` was serviced by a put:
`food_eaten` is incremented and the blob naps. -/
def doHuntGot (str : Nat → Nat) (i tok : Nat) (s : SimState) : SimState :=
  let b := s.blobs i
  if tok ≠ b.huntTok then s
  else
    let s1 := setBlob s i { b with food_eaten := b.food_eaten + 1, huntBlocked := false }
    schedule s1 TIME_AFTER_EAT (Target.huntLoop i tok)

/-- `Blob.sleep` resumes after `timeout(DAYLIGHT)`.  Following the source:
`if self.isHunting:` deliver `interrupt()` to the hunt process (a runtime
error if that process has terminated), set `isHunting = False`, kill the
blob if it has not eaten enough, and reset `food_eaten`; then the loop
re-checks `while self.alive` and parks for the next `DAYLIGHT`.  The
interrupt is delivered after the caller yields: the hunt process drops its
pending timer (token bump) and its handler runs `self.isHunting = False`
and `yield env.timeout(NIGHTTIME)`, whose event id is allocated after the
sleep process's own next timeout. -/
def doSleepWake (i : Nat) (s : SimState) : SimState :=
  let b := s.blobs i
  if b.isHunting then
    if b.huntDone then { s with crashed := true }
    else
      let alive2 := if b.food_eaten < b.food_requirements then false else b.alive
      let b2 : BlobState :=
        { b with isHunting := false, alive := alive2, food_eaten := 0,
                 huntTok := b.huntTok + 1 }
      let s1 := setBlob s i b2
      let s2 := if alive2 then schedule s1 DAYLIGHT (Target.sleepWake i) else s1
      schedule s2 NIGHTTIME (Target.huntLoop i (b.huntTok + 1))
  else
    if b.alive then schedule s DAYLIGHT (Target.sleepWake i) else s

/-- Dispatch one event. -/
def dispatch (str : Nat → Nat) (ev : Ev) (s : SimState) : SimState :=
  match ev.tgt with
  | Target.sunset => doSunset s
  | Target.growthDone => doGrowthDone s
  | Target.dayStart => doDayStart s
  | Target.sleepWake i => doSleepWake i s
  | Target.huntForaged i tok => doHuntForaged str i tok s
  | Target.huntLoop i tok => doHuntLoop str i tok s
  | Target.huntGot i tok => doHuntGot str i tok s

/-- One step of the event loop: pop the earliest pending event, advance the
clock to it, and run its continuation.  The run stops on an empty queue, at
the horizon, or after a crash. -/
def step (str : Nat → Nat) (s : SimState) : Option SimState :=
  if s.crashed then none
  else
    match s.queue with
    | [] => none
    | ev :: rest =>
      if simHorizon ≤ ev.time then none
      else some (dispatch str ev { s with time := ev.time, queue := rest })

/-- Run at most `fuel` steps of the event loop. -/
def runN (str : Nat → Nat) : Nat → SimState → SimState
  | 0, s => s
  | fuel + 1, s =>
    match step str s with
    | none => s
    | some s2 => runN str fuel s2

/-! ## The driver (module level code of `bio_sim.py`)

`env = simpy.Environment(); forest = Forest(env); Blob_list = [...]`.
Starting a process queues an URGENT initialization event; at `t = 0` these
run in creation order (forest first, then each blob's sleep then hunt) and
each immediately parks its process on its first timeout.  The model builds
that post-initialization queue directly, with event ids in creation
order. -/

def emptyState : SimState :=
  { time := 0, nextEid := 0, queue := [],
    food := ⟨none, INITIAL_FOOD, []⟩,
    blobs := fun _ => {}, sampleIdx := 0, crashed := false }

/-- Start blob `i`'s two processes: `sleep` parks on `timeout(DAYLIGHT)`,
`hunt` sets `isHunting = True` (already true) and parks on
`timeout(time_to_food())`, consuming one sample. -/
def startBlob (str : Nat → Nat) (i : Nat) (s : SimState) : SimState :=
  let s1 := schedule s DAYLIGHT (Target.sleepWake i)
  let s2 := schedule s1 (str s1.sampleIdx) (Target.huntForaged i 0)
  { s2 with sampleIdx := s2.sampleIdx + 1 }

def addBlobProcs (str : Nat → Nat) : Nat → SimState → SimState
  | 0, s => s
  | n + 1, s => startBlob str n (addBlobProcs str n s)

def initState (str : Nat → Nat) : SimState :=
  addBlobProcs str NUM_BLOB (schedule emptyState DAYLIGHT Target.sunset)

/-- States reachable by the simulation run on sample stream `str`. -/
inductive Reachable (str : Nat → Nat) : SimState → Prop where
  | init : Reachable str (initState str)
  | next : ∀ {s s2}, Reachable str s → step str s = some s2 → Reachable str s2

/-- Multi-step reachability between arbitrary states. -/
inductive Steps (str : Nat → Nat) : SimState → SimState → Prop where
  | refl : ∀ {s}, Steps str s s
  | tail : ∀ {s s2 s3}, Steps str s s2 → step str s2 = some s3 → Steps str s s3

/-! ## Invariant A: the food container is sane

The capacity stays unbounded (the source passes none), the level never goes
negative, and no process is ever parked on the container's blocking `get`
queue. -/

def InvA (s : SimState) : Prop :=
  s.food.capacity = none ∧ 0 ≤ s.food.level ∧ s.food.getWaiters = [] ∧
  ∀ i, (s.blobs i).huntBlocked = false

/-! ## Invariant B: process flag discipline and crash freedom

A hunting blob's hunt generator has not returned, a dead blob is never
hunting, a returned hunt generator belongs to a dead blob — and therefore
`sleep` never interrupts a terminated process, so the simulation never
raises SimPy's runtime error for that. -/

def InvB (s : SimState) : Prop :=
  s.crashed = false ∧
  (∀ i, (s.blobs i).isHunting = true → (s.blobs i).huntDone = false) ∧
  (∀ i, (s.blobs i).alive = false → (s.blobs i).isHunting = false) ∧
  (∀ i, (s.blobs i).huntDone = true → (s.blobs i).alive = false)

/-! ## Invariant Q: the event queue is well formed

Every pending event has an id below the allocation counter, the queue is
sorted by (time, id), and no pending event lies in the past. -/

def QWF (s : SimState) : Prop :=
  (∀ ev ∈ s.queue, ev.eid < s.nextEid) ∧
  s.queue.Pairwise evR ∧
  (∀ ev ∈ s.queue, s.time ≤ ev.time)

/-! ## Invariant T: pending hunt events never carry a future token

An interrupt bumps the blob's hunt token, so every pending hunt event holds
a token at most the blob's current one; the freshly scheduled resumption is
the only event holding the current token after an interrupt. -/

def evHunt (ev : Ev) (i tok : Nat) : Prop :=
  ev.tgt = Target.huntForaged i tok ∨ ev.tgt = Target.huntLoop i tok ∨
  ev.tgt = Target.huntGot i tok

def TokLe (s : SimState) : Prop :=
  ∀ ev ∈ s.queue, ∀ i tok, evHunt ev i tok → tok ≤ (s.blobs i).huntTok

/-! ## Invariant H: a hunting blob's hunt process is parked on a live timer

Whenever `isHunting` is true the hunt process holds exactly one pending
suspension; in the model, some pending event carries the blob's current
token (either its foraging timer or its post-meal nap). -/

def HuntLive (s : SimState) : Prop :=
  ∀ i, i < NUM_BLOB → (s.blobs i).isHunting = true →
    ∃ w ∈ s.queue, w.tgt = Target.huntForaged i ((s.blobs i).huntTok) ∨
      w.tgt = Target.huntLoop i ((s.blobs i).huntTok)

/-! ## The reachability invariant -/

def Inv (s : SimState) : Prop := InvA s ∧ InvB s ∧ QWF s ∧ TokLe s ∧ HuntLive s

/-- A small state whose blobs are all dead, used to witness C3. -/
def c3DeadState : SimState :=
  { time := 0, nextEid := 1, queue := [⟨5, 0, Target.dayStart⟩],
    food := ⟨none, 70, []⟩, blobs := fun _ => { alive := false, isHunting := false },
    sampleIdx := 0, crashed := false }

/-- Modelled from the spec: claim C1 reads `Blob.sleep`'s wake as three
top-level steps — IF `is_hunting`: interrupt and clear the flag; THEN
(unconditionally) evaluate survival; THEN reset `food_eaten`.  This is the
wake handler those words describe, to be compared with `doSleepWake`. -/
def sleepWakeClaimed (b : BlobState) : BlobState :=
  let b1 := if b.isHunting then { b with isHunting := false } else b
  let b2 := if b1.food_eaten < b1.food_requirements then { b1 with alive := false } else b1
  { b2 with food_eaten := 0 }

/-- A state whose blob 0 wakes its sleep process with `isHunting = false`:
the situation of every day-start sleep wake, where the hunt process is
still parked on the nighttime timeout it received at the previous sunset
(the sleep timeout carries the smaller event id, so the sleep process runs
first). -/
def c1State : SimState :=
  { time := DAY, nextEid := 9,
    queue := [⟨DAY + NIGHTTIME, 8, Target.huntLoop 0 1⟩],
    food := ⟨none, INITIAL_FOOD, []⟩,
    blobs := fun _ => { isHunting := false, huntTok := 1 },
    sampleIdx := 0, crashed := false }

/-- A small state whose blob 0's foraging timer is about to expire, used to
witness C4. -/
def c4State : SimState :=
  { time := 0, nextEid := 7, queue := [⟨3, 2, Target.huntForaged 0 0⟩],
    food := ⟨none, INITIAL_FOOD, []⟩, blobs := fun _ => {},
    sampleIdx := 0, crashed := false }

/-- The pending dispatch can change the food level: it is the sunset put,
or a live foraging wake that will observe `level > 0` and get one item. -/
def foodStep (s : SimState) : Prop :=
  match s.queue with
  | [] => False
  | ev :: _ =>
    ev.tgt = Target.sunset ∨
    ∃ i tok, ev.tgt = Target.huntForaged i tok ∧ tok = (s.blobs i).huntTok ∧
      0 < s.food.level

/-- Multi-step reachability along steps none of which is a food
operation. -/
inductive StepsNoFood (str : Nat → Nat) : SimState → SimState → Prop where
  | refl : ∀ {s}, StepsNoFood str s s
  | tail : ∀ {s s2 s3}, StepsNoFood str s s2 → ¬ foodStep s2 → step str s2 = some s3 →
      StepsNoFood str s s3

/-- A small state at nightfall, used to witness C6. -/
def c6State : SimState :=
  { time := 700, nextEid := 4, queue := [⟨720, 0, Target.sunset⟩],
    food := ⟨none, 12, []⟩, blobs := fun _ => {},
    sampleIdx := 0, crashed := false }

/-! ## The interrupted hunt process stays parked for the whole night -/

/-- Blob `i`'s hunt process is parked on its nighttime timeout: it is not
hunting, its generator has not returned, its pending resumption (the only
pending hunt event of blob `i` carrying the current token `tok`) is the
`while`-head resumption at time exactly `w`, and every other pending hunt
event of blob `i` is a stale cancelled timer. -/
def HuntParked (i w tok : Nat) (s : SimState) : Prop :=
  (s.blobs i).isHunting = false ∧
  (s.blobs i).huntTok = tok ∧
  (s.blobs i).huntDone = false ∧
  (∃ r ∈ s.queue, r.tgt = Target.huntLoop i tok ∧ r.time = w) ∧
  (∀ w2 ∈ s.queue, ∀ tok2, evHunt w2 i tok2 →
    tok2 ≤ tok ∧ (tok2 = tok → w2.tgt = Target.huntLoop i tok ∧ w2.time = w))

instance : DecidableRel evR := fun a b => by
  unfold evR
  infer_instance

/-- A small nightfall state whose blob 0 is hunting, used to witness C7. -/
def c7State : SimState :=
  { time := 700, nextEid := 4,
    queue := [⟨720, 1, Target.sleepWake 0⟩, ⟨730, 2, Target.huntForaged 0 0⟩],
    food := ⟨none, 70, []⟩,
    blobs := fun j => if j = 0 then {} else { isHunting := false },
    sampleIdx := 0, crashed := false }

/-- A mid-day state whose blob 0 is hunting, used to witness the amended C1. -/
def c1HuntState : SimState :=
  { time := DAYLIGHT, nextEid := 5,
    queue := [⟨900, 3, Target.huntForaged 0 0⟩],
    food := ⟨none, INITIAL_FOOD, []⟩,
    blobs := fun _ => {},
    sampleIdx := 0, crashed := false }

/-! ## Invariant M: the sleep/hunt phase discipline

Each blob alternates between a day phase (`isHunting = true`: its pending
sleep wake, if any, is the nightfall one, at a time `≡ DAYLIGHT (mod DAY)`)
and a night phase (`isHunting = false`: every pending event of its current
hunt timer generation is the single nighttime resumption `huntLoop`, at a
day-start instant, delivered after any sleep wake of the same instant).
At most one sleep wake per blob is ever pending.  This is what makes the
`food_eaten` reset of `Blob.sleep` a once-per-day-boundary action. -/

def ModeAt (i : Nat) (b : BlobState) (q : List Ev) : Prop :=
  List.countP (fun ev => decide (ev.tgt = Target.sleepWake i)) q ≤ 1 ∧
  (b.isHunting = true →
    ∀ ev ∈ q, ev.tgt = Target.sleepWake i → ev.time % DAY = DAYLIGHT) ∧
  (b.isHunting = false →
    ∀ ev ∈ q, evHunt ev i b.huntTok →
      ev.tgt = Target.huntLoop i b.huntTok ∧ ev.time % DAY = 0 ∧
      ∀ ws ∈ q, ws.tgt = Target.sleepWake i →
        (ws.time = ev.time ∧ ws.eid < ev.eid) ∨ ws.time = ev.time + DAYLIGHT)

def ModeInv (s : SimState) : Prop := ∀ i, ModeAt i (s.blobs i) s.queue

/-- All pending sleep wakes of blob `i` lie at or after time `w0`. -/
def SleepLB (i w0 : Nat) (s : SimState) : Prop :=
  ∀ ws ∈ s.queue, ws.tgt = Target.sleepWake i → w0 ≤ ws.time

/-- A nightfall state whose blob 0 is hunting, used to witness C9. -/
def c9State : SimState :=
  { time := 700, nextEid := 4,
    queue := [⟨720, 1, Target.sleepWake 0⟩, ⟨730, 2, Target.huntForaged 0 0⟩],
    food := ⟨none, 70, []⟩,
    blobs := fun j => if j = 0 then {} else { isHunting := false },
    sampleIdx := 0, crashed := false }

end BioSim

namespace BioSim

/-! ## Basic lemmas about the queue and the state builders -/

theorem mem_insertEv {a e : Ev} {q : List Ev} : a ∈ insertEv e q ↔ a = e ∨ a ∈ q := by
  induction q with
  | nil => simp [insertEv]
  | cons h t ih =>
    simp only [insertEv]
    split
    · simp [List.mem_cons]
    · simp only [List.mem_cons, ih]
      tauto

theorem self_mem_insertEv {e : Ev} {q : List Ev} : e ∈ insertEv e q :=
  mem_insertEv.mpr (Or.inl rfl)

theorem mem_insertEv_of_mem {a e : Ev} {q : List Ev} (h : a ∈ q) : a ∈ insertEv e q :=
  mem_insertEv.mpr (Or.inr h)

theorem evR_time_le {a b : Ev} (h : evR a b) : a.time ≤ b.time := by
  rcases h with h | ⟨h, _⟩
  · exact Nat.le_of_lt h
  · exact Nat.le_of_eq h

theorem pairwise_insertEv {e : Ev} {q : List Ev}
    (hfresh : ∀ b ∈ q, b.eid < e.eid) (hp : q.Pairwise evR) :
    (insertEv e q).Pairwise evR := by
  induction q with
  | nil => simp [insertEv]
  | cons h t ih =>
    rcases List.pairwise_cons.mp hp with ⟨hh, ht⟩
    simp only [insertEv]
    split
    · rename_i hlt
      refine List.pairwise_cons.mpr ⟨?_, hp⟩
      intro b hb
      rcases List.mem_cons.mp hb with rfl | hb
      · exact Or.inl hlt
      · exact Or.inl (Nat.lt_of_lt_of_le hlt (evR_time_le (hh b hb)))
    · rename_i hge
      refine List.pairwise_cons.mpr ⟨?_, ih (fun b hb => hfresh b (List.mem_cons_of_mem _ hb)) ht⟩
      intro b hb
      rcases mem_insertEv.mp hb with rfl | hb
      · rcases Nat.lt_or_ge h.time b.time with hlt | hge2
        · exact Or.inl hlt
        · have heq : h.time = b.time := by omega
          exact Or.inr ⟨heq, hfresh h (List.mem_cons_self _ _)⟩
      · exact hh b hb

@[simp] theorem schedule_blobs (s : SimState) (d : Nat) (t : Target) :
    (schedule s d t).blobs = s.blobs := rfl

@[simp] theorem schedule_food (s : SimState) (d : Nat) (t : Target) :
    (schedule s d t).food = s.food := rfl

@[simp] theorem schedule_time (s : SimState) (d : Nat) (t : Target) :
    (schedule s d t).time = s.time := rfl

@[simp] theorem schedule_crashed (s : SimState) (d : Nat) (t : Target) :
    (schedule s d t).crashed = s.crashed := rfl

@[simp] theorem schedule_sampleIdx (s : SimState) (d : Nat) (t : Target) :
    (schedule s d t).sampleIdx = s.sampleIdx := rfl

@[simp] theorem schedule_nextEid (s : SimState) (d : Nat) (t : Target) :
    (schedule s d t).nextEid = s.nextEid + 1 := rfl

theorem schedule_queue (s : SimState) (d : Nat) (t : Target) :
    (schedule s d t).queue = insertEv ⟨s.time + d, s.nextEid, t⟩ s.queue := rfl

@[simp] theorem setBlob_blobs_self (s : SimState) (i : Nat) (b : BlobState) :
    (setBlob s i b).blobs i = b := by simp [setBlob]

theorem setBlob_blobs_ne (s : SimState) (i j : Nat) (b : BlobState) (h : j ≠ i) :
    (setBlob s i b).blobs j = s.blobs j := by simp [setBlob, h]

@[simp] theorem setBlob_food (s : SimState) (i : Nat) (b : BlobState) :
    (setBlob s i b).food = s.food := rfl

@[simp] theorem setBlob_queue (s : SimState) (i : Nat) (b : BlobState) :
    (setBlob s i b).queue = s.queue := rfl

@[simp] theorem setBlob_time (s : SimState) (i : Nat) (b : BlobState) :
    (setBlob s i b).time = s.time := rfl

@[simp] theorem setBlob_nextEid (s : SimState) (i : Nat) (b : BlobState) :
    (setBlob s i b).nextEid = s.nextEid := rfl

@[simp] theorem setBlob_crashed (s : SimState) (i : Nat) (b : BlobState) :
    (setBlob s i b).crashed = s.crashed := rfl

@[simp] theorem setBlob_sampleIdx (s : SimState) (i : Nat) (b : BlobState) :
    (setBlob s i b).sampleIdx = s.sampleIdx := rfl

/-- Eliminator for `step`: a successful step pops the head of the queue. -/
theorem step_elim {str : Nat → Nat} {s s2 : SimState} (h : step str s = some s2) :
    s.crashed = false ∧ ∃ ev rest, s.queue = ev :: rest ∧ ev.time < simHorizon ∧
      s2 = dispatch str ev { s with time := ev.time, queue := rest } := by
  unfold step at h
  split at h
  · exact absurd h (by simp)
  next hc =>
    rw [Bool.not_eq_true] at hc
    refine ⟨hc, ?_⟩
    split at h
    · exact absurd h (by simp)
    next ev rest hq =>
      split at h
      · exact absurd h (by simp)
      next hh =>
        exact ⟨ev, rest, hq, Nat.lt_of_not_le hh, (Option.some_inj.mp h).symm⟩

theorem invA_schedule {s : SimState} (h : InvA s) (d : Nat) (t : Target) :
    InvA (schedule s d t) := h

theorem invA_setBlob {s : SimState} (h : InvA s) {b : BlobState} (i : Nat)
    (hbb : b.huntBlocked = false) : InvA (setBlob s i b) := by
  obtain ⟨hc, hl, hw, hb⟩ := h
  refine ⟨hc, hl, hw, fun j => ?_⟩
  by_cases hj : j = i
  · subst hj; simpa using hbb
  · rw [setBlob_blobs_ne _ _ _ _ hj]; exact hb j

theorem invA_ite {c : Prop} [Decidable c] {s1 s2 : SimState}
    (h1 : c → InvA s1) (h2 : ¬c → InvA s2) : InvA (if c then s1 else s2) := by
  split
  · exact h1 (by assumption)
  · exact h2 (by assumption)

theorem invA_huntLoopHead (str : Nat → Nat) (i : Nat) {s : SimState} (h : InvA s) :
    InvA (huntLoopHead str i s) := by
  simp only [huntLoopHead]
  split
  · apply invA_schedule
    exact invA_setBlob ⟨h.1, h.2.1, h.2.2.1, h.2.2.2⟩ i (by simpa using h.2.2.2 i)
  · exact invA_setBlob h i (by simpa using h.2.2.2 i)

theorem invA_dispatch (str : Nat → Nat) (ev : Ev) {s : SimState} (h : InvA s) :
    InvA (dispatch str ev s) := by
  obtain ⟨hc, hl, hw, hb⟩ := h
  unfold dispatch
  cases ev.tgt with
  | sunset =>
    have hok : s.food.putOk FODD_RATE_PRODUCTION = true := by
      simp [Container.putOk, hc]
    simp only [doSunset, hw, hok, if_true, serviceGets, List.foldl_nil]
    refine ⟨hc, ?_, rfl, hb⟩
    show (0:Int) ≤ s.food.level + FODD_RATE_PRODUCTION
    unfold FODD_RATE_PRODUCTION
    omega
  | growthDone => exact ⟨hc, hl, hw, hb⟩
  | dayStart => exact ⟨hc, hl, hw, hb⟩
  | sleepWake i =>
    simp only [doSleepWake]
    split
    · split
      · exact ⟨hc, hl, hw, hb⟩
      · apply invA_schedule
        refine invA_ite (fun _ => invA_schedule ?_ _ _) (fun _ => ?_) <;>
          exact invA_setBlob ⟨hc, hl, hw, hb⟩ i (by simpa using hb i)
    · split
      · exact ⟨hc, hl, hw, hb⟩
      · exact ⟨hc, hl, hw, hb⟩
  | huntForaged i tok =>
    simp only [doHuntForaged]
    split
    · exact ⟨hc, hl, hw, hb⟩
    · split
      · split
        · apply invA_schedule
          apply invA_setBlob _ i (by simpa using hb i)
          refine ⟨hc, ?_, hw, hb⟩
          show (0:Int) ≤ s.food.level - 1
          omega
        · rename_i h1 h2
          omega
      · exact invA_huntLoopHead str i ⟨hc, hl, hw, hb⟩
  | huntLoop i tok =>
    simp only [doHuntLoop]
    split
    · exact ⟨hc, hl, hw, hb⟩
    · exact invA_huntLoopHead str i ⟨hc, hl, hw, hb⟩
  | huntGot i tok =>
    simp only [doHuntGot]
    split
    · exact ⟨hc, hl, hw, hb⟩
    · apply invA_schedule
      exact invA_setBlob ⟨hc, hl, hw, hb⟩ i (by simp)

theorem invA_step {str : Nat → Nat} {s s2 : SimState} (h : InvA s)
    (hs : step str s = some s2) : InvA s2 := by
  obtain ⟨-, ev, rest, hq, -, hdisp⟩ := step_elim hs
  subst hdisp
  exact invA_dispatch str ev ⟨h.1, h.2.1, h.2.2.1, h.2.2.2⟩

theorem invB_ite {c : Prop} [Decidable c] {s1 s2 : SimState}
    (h1 : c → InvB s1) (h2 : ¬c → InvB s2) : InvB (if c then s1 else s2) := by
  split
  · exact h1 (by assumption)
  · exact h2 (by assumption)

theorem invB_setBlob {s : SimState} (h : InvB s) {b : BlobState} (i : Nat)
    (hb1 : b.isHunting = true → b.huntDone = false)
    (hb2 : b.alive = false → b.isHunting = false)
    (hb3 : b.huntDone = true → b.alive = false) :
    InvB (setBlob s i b) := by
  obtain ⟨hc, hih, hdn, hdd⟩ := h
  refine ⟨hc, fun j => ?_, fun j => ?_, fun j => ?_⟩ <;> by_cases hj : j = i
  · subst hj; simpa using hb1
  · rw [setBlob_blobs_ne _ _ _ _ hj]; exact hih j
  · subst hj; simpa using hb2
  · rw [setBlob_blobs_ne _ _ _ _ hj]; exact hdn j
  · subst hj; simpa using hb3
  · rw [setBlob_blobs_ne _ _ _ _ hj]; exact hdd j

theorem invB_huntLoopHead (str : Nat → Nat) (i : Nat) {s : SimState} (h : InvB s) :
    InvB (huntLoopHead str i s) := by
  have h4 := h.2.2.2
  have h3 := h.2.2.1
  simp only [huntLoopHead]
  split
  next halive =>
    apply invB_setBlob (b := { s.blobs i with isHunting := true }) h i
    · intro _
      show (s.blobs i).huntDone = false
      by_contra hcon
      rw [Bool.not_eq_false] at hcon
      rw [h4 i hcon] at halive
      exact absurd halive (by simp)
    · intro hdead
      exact absurd hdead (by simp [halive])
    · intro hdone
      show (s.blobs i).alive = false
      exact h4 i (by simpa using hdone)
  next hdead =>
    rw [Bool.not_eq_true] at hdead
    apply invB_setBlob (b := { s.blobs i with huntDone := true }) h i
    · intro hih
      exact absurd (h3 i hdead) (by simp_all)
    · intro _
      show (s.blobs i).isHunting = false
      exact h3 i hdead
    · intro _
      show (s.blobs i).alive = false
      exact hdead

theorem invB_foldl_schedule (lst : List (Nat × Nat)) {s : SimState} (h : InvB s) :
    InvB (lst.foldl (fun acc w => schedule acc 0 (Target.huntGot w.1 w.2)) s) := by
  induction lst generalizing s with
  | nil => exact h
  | cons a l ih => exact ih ⟨h.1, h.2.1, h.2.2.1, h.2.2.2⟩

theorem invB_dispatch (str : Nat → Nat) (ev : Ev) {s : SimState} (h : InvB s) :
    InvB (dispatch str ev s) := by
  obtain ⟨hc, hih, hdn, hdd⟩ := h
  unfold dispatch
  cases ev.tgt with
  | sunset =>
    simp only [doSunset]
    split
    · exact invB_foldl_schedule _ ⟨hc, hih, hdn, hdd⟩
    · exact ⟨hc, hih, hdn, hdd⟩
  | growthDone => exact ⟨hc, hih, hdn, hdd⟩
  | dayStart => exact ⟨hc, hih, hdn, hdd⟩
  | sleepWake i =>
    simp only [doSleepWake]
    split
    next hhunt =>
      split
      next hdone =>
        exact absurd (hih i hhunt) (by simp_all)
      next hdone =>
        apply invB_ite (fun _ => ?_) (fun _ => ?_) <;>
        · first
          | apply invB_ite (fun _ => ?_) (fun _ => ?_)
          | skip
          all_goals
            apply invB_setBlob ⟨hc, hih, hdn, hdd⟩ i <;> intro hx <;>
              simp_all [hih i hhunt]
    next hnothunt =>
      split
      · exact ⟨hc, hih, hdn, hdd⟩
      · exact ⟨hc, hih, hdn, hdd⟩
  | huntForaged i tok =>
    simp only [doHuntForaged]
    split
    · exact ⟨hc, hih, hdn, hdd⟩
    · split
      · split
        · apply invB_setBlob (s := { s with food := _ }) ⟨hc, hih, hdn, hdd⟩ i <;>
            intro hx <;> simp_all [hih i, hdn i, hdd i]
        · omega
      · exact invB_huntLoopHead str i ⟨hc, hih, hdn, hdd⟩
  | huntLoop i tok =>
    simp only [doHuntLoop]
    split
    · exact ⟨hc, hih, hdn, hdd⟩
    · exact invB_huntLoopHead str i ⟨hc, hih, hdn, hdd⟩
  | huntGot i tok =>
    simp only [doHuntGot]
    split
    · exact ⟨hc, hih, hdn, hdd⟩
    · apply invB_setBlob ⟨hc, hih, hdn, hdd⟩ i <;>
        intro hx <;> simp_all [hih i, hdn i, hdd i]

theorem invB_step {str : Nat → Nat} {s s2 : SimState} (h : InvB s)
    (hs : step str s = some s2) : InvB s2 := by
  obtain ⟨-, ev, rest, hq, -, hdisp⟩ := step_elim hs
  subst hdisp
  exact invB_dispatch str ev ⟨h.1, h.2.1, h.2.2.1, h.2.2.2⟩

theorem qwf_schedule {s : SimState} (h : QWF s) (d : Nat) (t : Target) :
    QWF (schedule s d t) := by
  obtain ⟨he, hp, ht⟩ := h
  refine ⟨?_, ?_, ?_⟩
  · intro e hmem
    rcases mem_insertEv.mp hmem with rfl | hmem
    · exact Nat.lt_succ_self _
    · exact Nat.lt_succ_of_lt (he e hmem)
  · exact pairwise_insertEv (fun b hb => he b hb) hp
  · intro e hmem
    rcases mem_insertEv.mp hmem with rfl | hmem
    · exact Nat.le_add_right _ _
    · exact ht e hmem

theorem qwf_ite {c : Prop} [Decidable c] {s1 s2 : SimState}
    (h1 : c → QWF s1) (h2 : ¬c → QWF s2) : QWF (if c then s1 else s2) := by
  split
  · exact h1 (by assumption)
  · exact h2 (by assumption)

theorem qwf_foldl_schedule (lst : List (Nat × Nat)) {s : SimState} (h : QWF s) :
    QWF (lst.foldl (fun acc w => schedule acc 0 (Target.huntGot w.1 w.2)) s) := by
  induction lst generalizing s with
  | nil => exact h
  | cons a l ih => exact ih (qwf_schedule h 0 _)

theorem qwf_dispatch (str : Nat → Nat) (ev : Ev) {s : SimState} (h : QWF s) :
    QWF (dispatch str ev s) := by
  unfold dispatch
  cases ev.tgt with
  | sunset =>
    simp only [doSunset]
    split
    · exact qwf_foldl_schedule _ (qwf_schedule ⟨h.1, h.2.1, h.2.2⟩ 0 _)
    · exact h
  | growthDone => exact qwf_schedule h _ _
  | dayStart => exact qwf_schedule h _ _
  | sleepWake i =>
    simp only [doSleepWake]
    split
    · split
      · exact h
      · apply qwf_schedule
        exact qwf_ite (fun _ => qwf_schedule ⟨h.1, h.2.1, h.2.2⟩ _ _)
          (fun _ => ⟨h.1, h.2.1, h.2.2⟩)
    · exact qwf_ite (fun _ => qwf_schedule h _ _) (fun _ => h)
  | huntForaged i tok =>
    simp only [doHuntForaged]
    split
    · exact h
    · split
      · split
        · exact qwf_schedule ⟨h.1, h.2.1, h.2.2⟩ _ _
        · exact ⟨h.1, h.2.1, h.2.2⟩
      · simp only [huntLoopHead]
        split
        · exact qwf_schedule ⟨h.1, h.2.1, h.2.2⟩ _ _
        · exact ⟨h.1, h.2.1, h.2.2⟩
  | huntLoop i tok =>
    simp only [doHuntLoop]
    split
    · exact h
    · simp only [huntLoopHead]
      split
      · exact qwf_schedule ⟨h.1, h.2.1, h.2.2⟩ _ _
      · exact ⟨h.1, h.2.1, h.2.2⟩
  | huntGot i tok =>
    simp only [doHuntGot]
    split
    · exact h
    · exact qwf_schedule ⟨h.1, h.2.1, h.2.2⟩ _ _

theorem qwf_step {str : Nat → Nat} {s s2 : SimState} (h : QWF s)
    (hs : step str s = some s2) : QWF s2 := by
  obtain ⟨-, ev, rest, hq, -, hdisp⟩ := step_elim hs
  subst hdisp
  obtain ⟨he, hp, ht⟩ := h
  rw [hq] at he hp ht
  rcases List.pairwise_cons.mp hp with ⟨hhead, htail⟩
  apply qwf_dispatch
  refine ⟨?_, htail, ?_⟩
  · intro e hmem
    exact he e (List.mem_cons_of_mem _ hmem)
  · intro e hmem
    exact evR_time_le (hhead e hmem)

theorem tokle_step {str : Nat → Nat} {s s2 : SimState} (hA : InvA s) (hT : TokLe s)
    (hs : step str s = some s2) : TokLe s2 := by
  obtain ⟨-, ev, rest, hq, -, hdisp⟩ := step_elim hs
  subst hdisp
  have hTmid : ∀ w ∈ rest, ∀ i tok, evHunt w i tok → tok ≤ (s.blobs i).huntTok :=
    fun w hw => hT w (hq ▸ List.mem_cons_of_mem _ hw)
  unfold dispatch
  cases ev.tgt with
  | sunset =>
    have hok : s.food.putOk FODD_RATE_PRODUCTION = true := by
      simp [Container.putOk, hA.1]
    simp only [doSunset, hA.2.2.1, hok, if_true, serviceGets, List.foldl_nil]
    intro w hw i tok hh
    rcases mem_insertEv.mp hw with rfl | hw
    · simp [evHunt] at hh
    · exact hTmid w hw i tok hh
  | growthDone =>
    intro w hw i tok hh
    rcases mem_insertEv.mp hw with rfl | hw
    · simp [evHunt] at hh
    · exact hTmid w hw i tok hh
  | dayStart =>
    intro w hw i tok hh
    rcases mem_insertEv.mp hw with rfl | hw
    · simp [evHunt] at hh
    · exact hTmid w hw i tok hh
  | sleepWake i =>
    simp only [doSleepWake]
    split
    · split
      · exact fun w hw i2 tok2 hh => hTmid w hw i2 tok2 hh
      · -- the interrupt bumps the token and schedules the night resumption
        split
        next hstarve =>
          simp only [Bool.false_eq_true, if_false]
          intro w hw i2 tok2 hh
          rcases mem_insertEv.mp hw with rfl | hw
          · rcases hh with hh | hh | hh <;> simp at hh
            obtain ⟨rfl, rfl⟩ := hh
            simp
          · have := hTmid w hw i2 tok2 hh
            by_cases hji : i2 = i
            · subst hji
              simp
              omega
            · simp only [schedule_blobs, setBlob_blobs_ne _ _ _ _ hji]
              exact this
        next hfed =>
          split
          · intro w hw i2 tok2 hh
            rcases mem_insertEv.mp hw with rfl | hw
            · rcases hh with hh | hh | hh <;> simp at hh
              obtain ⟨rfl, rfl⟩ := hh
              simp
            · rcases mem_insertEv.mp hw with rfl | hw
              · simp [evHunt] at hh
              · have := hTmid w hw i2 tok2 hh
                by_cases hji : i2 = i
                · subst hji
                  simp
                  omega
                · simp only [schedule_blobs, setBlob_blobs_ne _ _ _ _ hji]
                  exact this
          · intro w hw i2 tok2 hh
            rcases mem_insertEv.mp hw with rfl | hw
            · rcases hh with hh | hh | hh <;> simp at hh
              obtain ⟨rfl, rfl⟩ := hh
              simp
            · have := hTmid w hw i2 tok2 hh
              by_cases hji : i2 = i
              · subst hji
                simp
                omega
              · simp only [schedule_blobs, setBlob_blobs_ne _ _ _ _ hji]
                exact this
    · split
      · intro w hw i2 tok2 hh
        rcases mem_insertEv.mp hw with rfl | hw
        · simp [evHunt] at hh
        · exact hTmid w hw i2 tok2 hh
      · exact fun w hw i2 tok2 hh => hTmid w hw i2 tok2 hh
  | huntForaged i tok =>
    simp only [doHuntForaged]
    split
    · exact fun w hw i2 tok2 hh => hTmid w hw i2 tok2 hh
    next hlive =>
      rw [not_ne_iff] at hlive
      split
      · split
        · intro w hw i2 tok2 hh
          rcases mem_insertEv.mp hw with rfl | hw
          · rcases hh with hh | hh | hh <;> simp at hh
            obtain ⟨rfl, rfl⟩ := hh
            simp [hlive]
          · have := hTmid w hw i2 tok2 hh
            by_cases hji : i2 = i
            · subst hji
              simpa using this
            · rwa [schedule_blobs, setBlob_blobs_ne _ _ _ _ hji]
        · omega
      · simp only [huntLoopHead]
        split
        · intro w hw i2 tok2 hh
          rcases mem_insertEv.mp hw with rfl | hw
          · rcases hh with hh | hh | hh <;> simp at hh
            obtain ⟨rfl, rfl⟩ := hh
            simp
          · have := hTmid w hw i2 tok2 hh
            by_cases hji : i2 = i
            · subst hji
              simpa using this
            · rwa [schedule_blobs, setBlob_blobs_ne _ _ _ _ hji]
        · intro w hw i2 tok2 hh
          have := hTmid w hw i2 tok2 hh
          by_cases hji : i2 = i
          · subst hji
            simpa using this
          · rwa [setBlob_blobs_ne _ _ _ _ hji]
  | huntLoop i tok =>
    simp only [doHuntLoop]
    split
    · exact fun w hw i2 tok2 hh => hTmid w hw i2 tok2 hh
    next hlive =>
      rw [not_ne_iff] at hlive
      simp only [huntLoopHead]
      split
      · intro w hw i2 tok2 hh
        rcases mem_insertEv.mp hw with rfl | hw
        · rcases hh with hh | hh | hh <;> simp at hh
          obtain ⟨rfl, rfl⟩ := hh
          simp
        · have := hTmid w hw i2 tok2 hh
          by_cases hji : i2 = i
          · subst hji
            simpa using this
          · rwa [schedule_blobs, setBlob_blobs_ne _ _ _ _ hji]
      · intro w hw i2 tok2 hh
        have := hTmid w hw i2 tok2 hh
        by_cases hji : i2 = i
        · subst hji
          simpa using this
        · rwa [setBlob_blobs_ne _ _ _ _ hji]
  | huntGot i tok =>
    simp only [doHuntGot]
    split
    · exact fun w hw i2 tok2 hh => hTmid w hw i2 tok2 hh
    next hlive =>
      rw [not_ne_iff] at hlive
      intro w hw i2 tok2 hh
      rcases mem_insertEv.mp hw with rfl | hw
      · rcases hh with hh | hh | hh <;> simp at hh
        obtain ⟨rfl, rfl⟩ := hh
        simp [hlive]
      · have := hTmid w hw i2 tok2 hh
        by_cases hji : i2 = i
        · subst hji
          simpa using this
        · rwa [schedule_blobs, setBlob_blobs_ne _ _ _ _ hji]

theorem huntlive_step {str : Nat → Nat} {s s2 : SimState} (hA : InvA s) (hB : InvB s)
    (hH : HuntLive s) (hs : step str s = some s2) : HuntLive s2 := by
  obtain ⟨-, ev, rest, hq, -, hdisp⟩ := step_elim hs
  subst hdisp
  unfold dispatch
  cases htgt : ev.tgt with
  | sunset =>
    have hok : s.food.putOk FODD_RATE_PRODUCTION = true := by
      simp [Container.putOk, hA.1]
    simp only [doSunset, hA.2.2.1, hok, if_true, serviceGets, List.foldl_nil]
    intro i2 hiN hhunt2
    obtain ⟨w, hwmem, hwt⟩ := hH i2 hiN hhunt2
    have hwrest : w ∈ rest := by
      rw [hq] at hwmem
      rcases List.mem_cons.mp hwmem with rfl | h
      · simp [htgt] at hwt
      · exact h
    exact ⟨w, mem_insertEv_of_mem hwrest, hwt⟩
  | growthDone =>
    intro i2 hiN hhunt2
    obtain ⟨w, hwmem, hwt⟩ := hH i2 hiN hhunt2
    have hwrest : w ∈ rest := by
      rw [hq] at hwmem
      rcases List.mem_cons.mp hwmem with rfl | h
      · simp [htgt] at hwt
      · exact h
    exact ⟨w, mem_insertEv_of_mem hwrest, hwt⟩
  | dayStart =>
    intro i2 hiN hhunt2
    obtain ⟨w, hwmem, hwt⟩ := hH i2 hiN hhunt2
    have hwrest : w ∈ rest := by
      rw [hq] at hwmem
      rcases List.mem_cons.mp hwmem with rfl | h
      · simp [htgt] at hwt
      · exact h
    exact ⟨w, mem_insertEv_of_mem hwrest, hwt⟩
  | sleepWake i =>
    simp only [doSleepWake]
    split
    next hhunt =>
      split
      next hdone => exact absurd (hB.2.1 i hhunt) (by simp_all)
      next hdone =>
        have key : ∀ (b2 : BlobState) (s3 : SimState), b2.isHunting = false →
            s3.blobs = (fun j => if j = i then b2 else s.blobs j) →
            (∀ w ∈ rest, w ∈ s3.queue) → HuntLive s3 := by
          intro b2 s3 hb2 hblobs hqueue i2 hiN hhunt2
          rw [hblobs] at hhunt2 ⊢
          by_cases hji : i2 = i
          · subst hji
            simp only [if_pos rfl] at hhunt2
            exact absurd hhunt2 (by simp [hb2])
          · simp only [if_neg hji] at hhunt2 ⊢
            obtain ⟨w, hwmem, hwt⟩ := hH i2 hiN hhunt2
            have hwrest : w ∈ rest := by
              rw [hq] at hwmem
              rcases List.mem_cons.mp hwmem with rfl | h
              · rw [htgt] at hwt
                simp at hwt
              · exact h
            exact ⟨w, hqueue w hwrest, hwt⟩
        split
        next hstarve =>
          simp only [Bool.false_eq_true, if_false]
          exact key _ _ rfl rfl (fun w hw => mem_insertEv_of_mem hw)
        next hfed =>
          split
          · exact key _ _ rfl rfl (fun w hw => mem_insertEv_of_mem (mem_insertEv_of_mem hw))
          · exact key _ _ rfl rfl (fun w hw => mem_insertEv_of_mem hw)
    next hnothunt =>
      have key : ∀ (s3 : SimState), s3.blobs = s.blobs → (∀ w ∈ rest, w ∈ s3.queue) →
          HuntLive s3 := by
        intro s3 hblobs hqueue i2 hiN hhunt2
        rw [hblobs] at hhunt2 ⊢
        obtain ⟨w, hwmem, hwt⟩ := hH i2 hiN hhunt2
        have hwrest : w ∈ rest := by
          rw [hq] at hwmem
          rcases List.mem_cons.mp hwmem with rfl | h
          · rw [htgt] at hwt
            simp at hwt
          · exact h
        exact ⟨w, hqueue w hwrest, hwt⟩
      split
      · exact key _ rfl (fun w hw => mem_insertEv_of_mem hw)
      · exact key _ rfl (fun w hw => hw)
  | huntForaged i tok =>
    simp only [doHuntForaged]
    split
    next hstale =>
      -- a cancelled timer fires into nothing; the live witness is untouched
      intro i2 hiN hhunt2
      obtain ⟨w, hwmem, hwt⟩ := hH i2 hiN hhunt2
      have hwrest : w ∈ rest := by
        rw [hq] at hwmem
        rcases List.mem_cons.mp hwmem with rfl | h
        · rw [htgt] at hwt
          rcases hwt with hwt | hwt
          · have : i = i2 ∧ tok = (s.blobs i2).huntTok := by
              simpa using hwt
            exact absurd (this.1 ▸ this.2) hstale
          · simp at hwt
        · exact h
      exact ⟨w, hwrest, hwt⟩
    next hlive =>
      rw [not_ne_iff] at hlive
      split
      · split
        · -- a food item is eaten; the nap timer is the new live suspension
          intro i2 hiN hhunt2
          by_cases hji : i2 = i
          · subst hji
            refine ⟨_, self_mem_insertEv, Or.inr ?_⟩
            simp [hlive]
          · rw [schedule_blobs, setBlob_blobs_ne _ _ _ _ hji] at hhunt2 ⊢
            obtain ⟨w, hwmem, hwt⟩ := hH i2 hiN hhunt2
            have hwrest : w ∈ rest := by
              rw [hq] at hwmem
              rcases List.mem_cons.mp hwmem with rfl | h
              · rw [htgt] at hwt
                rcases hwt with hwt | hwt
                · have hpair : i = i2 ∧ tok = (s.blobs i2).huntTok := by simpa using hwt
                  exact absurd hpair.1 (fun hx => hji hx.symm)
                · simp at hwt
              · exact h
            exact ⟨w, mem_insertEv_of_mem hwrest, hwt⟩
        · omega
      · simp only [huntLoopHead]
        split
        · -- forest depleted: the loop head starts a fresh foraging timer
          intro i2 hiN hhunt2
          by_cases hji : i2 = i
          · subst hji
            refine ⟨_, self_mem_insertEv, Or.inl ?_⟩
            simp [hlive]
          · rw [schedule_blobs, setBlob_blobs_ne _ _ _ _ hji] at hhunt2 ⊢
            obtain ⟨w, hwmem, hwt⟩ := hH i2 hiN hhunt2
            have hwrest : w ∈ rest := by
              rw [hq] at hwmem
              rcases List.mem_cons.mp hwmem with rfl | h
              · rw [htgt] at hwt
                rcases hwt with hwt | hwt
                · have hpair : i = i2 ∧ tok = (s.blobs i2).huntTok := by simpa using hwt
                  exact absurd hpair.1 (fun hx => hji hx.symm)
                · simp at hwt
              · exact h
            exact ⟨w, mem_insertEv_of_mem hwrest, hwt⟩
        next hdead =>
          -- the generator returns; a dead blob is not hunting
          rw [Bool.not_eq_true] at hdead
          intro i2 hiN hhunt2
          by_cases hji : i2 = i
          · subst hji
            rw [setBlob_blobs_self] at hhunt2
            have : (s.blobs i2).isHunting = false := hB.2.2.1 i2 hdead
            simp_all
          · rw [setBlob_blobs_ne _ _ _ _ hji] at hhunt2 ⊢
            obtain ⟨w, hwmem, hwt⟩ := hH i2 hiN hhunt2
            have hwrest : w ∈ rest := by
              rw [hq] at hwmem
              rcases List.mem_cons.mp hwmem with rfl | h
              · rw [htgt] at hwt
                rcases hwt with hwt | hwt
                · have hpair : i = i2 ∧ tok = (s.blobs i2).huntTok := by simpa using hwt
                  exact absurd hpair.1 (fun hx => hji hx.symm)
                · simp at hwt
              · exact h
            exact ⟨w, hwrest, hwt⟩
  | huntLoop i tok =>
    simp only [doHuntLoop]
    split
    next hstale =>
      intro i2 hiN hhunt2
      obtain ⟨w, hwmem, hwt⟩ := hH i2 hiN hhunt2
      have hwrest : w ∈ rest := by
        rw [hq] at hwmem
        rcases List.mem_cons.mp hwmem with rfl | h
        · rw [htgt] at hwt
          rcases hwt with hwt | hwt
          · simp at hwt
          · have : i = i2 ∧ tok = (s.blobs i2).huntTok := by
              simpa using hwt
            exact absurd (this.1 ▸ this.2) hstale
        · exact h
      exact ⟨w, hwrest, hwt⟩
    next hlive =>
      rw [not_ne_iff] at hlive
      simp only [huntLoopHead]
      split
      · intro i2 hiN hhunt2
        by_cases hji : i2 = i
        · subst hji
          refine ⟨_, self_mem_insertEv, Or.inl ?_⟩
          simp [hlive]
        · rw [schedule_blobs, setBlob_blobs_ne _ _ _ _ hji] at hhunt2 ⊢
          obtain ⟨w, hwmem, hwt⟩ := hH i2 hiN hhunt2
          have hwrest : w ∈ rest := by
            rw [hq] at hwmem
            rcases List.mem_cons.mp hwmem with rfl | h
            · rw [htgt] at hwt
              rcases hwt with hwt | hwt
              · simp at hwt
              · have hpair : i = i2 ∧ tok = (s.blobs i2).huntTok := by simpa using hwt
                exact absurd hpair.1 (fun hx => hji hx.symm)
            · exact h
          exact ⟨w, mem_insertEv_of_mem hwrest, hwt⟩
      next hdead =>
        rw [Bool.not_eq_true] at hdead
        intro i2 hiN hhunt2
        by_cases hji : i2 = i
        · subst hji
          rw [setBlob_blobs_self] at hhunt2
          have : (s.blobs i2).isHunting = false := hB.2.2.1 i2 hdead
          simp_all
        · rw [setBlob_blobs_ne _ _ _ _ hji] at hhunt2 ⊢
          obtain ⟨w, hwmem, hwt⟩ := hH i2 hiN hhunt2
          have hwrest : w ∈ rest := by
            rw [hq] at hwmem
            rcases List.mem_cons.mp hwmem with rfl | h
            · rw [htgt] at hwt
              rcases hwt with hwt | hwt
              · simp at hwt
              · have hpair : i = i2 ∧ tok = (s.blobs i2).huntTok := by simpa using hwt
                exact absurd hpair.1 (fun hx => hji hx.symm)
            · exact h
          exact ⟨w, hwrest, hwt⟩
  | huntGot i tok =>
    simp only [doHuntGot]
    split
    next hstale =>
      intro i2 hiN hhunt2
      obtain ⟨w, hwmem, hwt⟩ := hH i2 hiN hhunt2
      have hwrest : w ∈ rest := by
        rw [hq] at hwmem
        rcases List.mem_cons.mp hwmem with rfl | h
        · rw [htgt] at hwt
          simp at hwt
        · exact h
      exact ⟨w, hwrest, hwt⟩
    next hlive =>
      rw [not_ne_iff] at hlive
      intro i2 hiN hhunt2
      by_cases hji : i2 = i
      · subst hji
        refine ⟨_, self_mem_insertEv, Or.inr ?_⟩
        simp [hlive]
      · rw [schedule_blobs, setBlob_blobs_ne _ _ _ _ hji] at hhunt2 ⊢
        obtain ⟨w, hwmem, hwt⟩ := hH i2 hiN hhunt2
        have hwrest : w ∈ rest := by
          rw [hq] at hwmem
          rcases List.mem_cons.mp hwmem with rfl | h
          · rw [htgt] at hwt
            simp at hwt
          · exact h
        exact ⟨w, mem_insertEv_of_mem hwrest, hwt⟩

/-! ## The invariants hold initially -/

theorem startBlob_food (str : Nat → Nat) (i : Nat) (s : SimState) :
    (startBlob str i s).food = s.food := rfl

theorem startBlob_blobs (str : Nat → Nat) (i : Nat) (s : SimState) :
    (startBlob str i s).blobs = s.blobs := rfl

theorem startBlob_crashed (str : Nat → Nat) (i : Nat) (s : SimState) :
    (startBlob str i s).crashed = s.crashed := rfl

theorem startBlob_time (str : Nat → Nat) (i : Nat) (s : SimState) :
    (startBlob str i s).time = s.time := rfl

theorem addBlobProcs_food (str : Nat → Nat) : ∀ (n : Nat) (s : SimState),
    (addBlobProcs str n s).food = s.food
  | 0, s => rfl
  | n + 1, s => by rw [addBlobProcs, startBlob_food, addBlobProcs_food str n s]

theorem addBlobProcs_blobs (str : Nat → Nat) : ∀ (n : Nat) (s : SimState),
    (addBlobProcs str n s).blobs = s.blobs
  | 0, s => rfl
  | n + 1, s => by rw [addBlobProcs, startBlob_blobs, addBlobProcs_blobs str n s]

theorem addBlobProcs_crashed (str : Nat → Nat) : ∀ (n : Nat) (s : SimState),
    (addBlobProcs str n s).crashed = s.crashed
  | 0, s => rfl
  | n + 1, s => by rw [addBlobProcs, startBlob_crashed, addBlobProcs_crashed str n s]

theorem addBlobProcs_time (str : Nat → Nat) : ∀ (n : Nat) (s : SimState),
    (addBlobProcs str n s).time = s.time
  | 0, s => rfl
  | n + 1, s => by rw [addBlobProcs, startBlob_time, addBlobProcs_time str n s]

theorem initState_food (str : Nat → Nat) : (initState str).food = ⟨none, INITIAL_FOOD, []⟩ := by
  rw [initState, addBlobProcs_food]
  rfl

theorem initState_blobs (str : Nat → Nat) : (initState str).blobs = fun _ => {} := by
  rw [initState, addBlobProcs_blobs]
  rfl

theorem initState_crashed (str : Nat → Nat) : (initState str).crashed = false := by
  rw [initState, addBlobProcs_crashed]
  rfl

theorem initState_time (str : Nat → Nat) : (initState str).time = 0 := by
  rw [initState, addBlobProcs_time]
  rfl

theorem invA_initState (str : Nat → Nat) : InvA (initState str) := by
  refine ⟨?_, ?_, ?_, ?_⟩
  · rw [initState_food]
  · rw [initState_food]
    show (0:Int) ≤ INITIAL_FOOD
    unfold INITIAL_FOOD
    omega
  · rw [initState_food]
  · intro i
    rw [initState_blobs]

theorem invB_initState (str : Nat → Nat) : InvB (initState str) := by
  refine ⟨initState_crashed str, ?_, ?_, ?_⟩ <;> intro i <;> rw [initState_blobs] <;> simp

theorem qwf_startBlob (str : Nat → Nat) (i : Nat) {s : SimState} (h : QWF s) :
    QWF (startBlob str i s) := by
  have h1 := qwf_schedule h DAYLIGHT (Target.sleepWake i)
  have h2 := qwf_schedule h1 (str (schedule s DAYLIGHT (Target.sleepWake i)).sampleIdx)
    (Target.huntForaged i 0)
  exact ⟨h2.1, h2.2.1, h2.2.2⟩

theorem qwf_addBlobProcs (str : Nat → Nat) : ∀ (n : Nat) {s : SimState},
    QWF s → QWF (addBlobProcs str n s)
  | 0, s, h => h
  | n + 1, s, h => qwf_startBlob str n (qwf_addBlobProcs str n h)

theorem qwf_initState (str : Nat → Nat) : QWF (initState str) := by
  apply qwf_addBlobProcs
  apply qwf_schedule
  exact ⟨by simp [emptyState], by simp [emptyState], by simp [emptyState]⟩

/-- Building the roster only adds each blob's sleep timer and token-0
foraging timer to the queue. -/
theorem addBlobProcs_queue_shape (str : Nat → Nat) : ∀ (n : Nat) (s : SimState),
    ∀ w ∈ (addBlobProcs str n s).queue, w ∈ s.queue ∨
      ∃ i, i < n ∧ (w.tgt = Target.sleepWake i ∨ w.tgt = Target.huntForaged i 0) := by
  intro n
  induction n with
  | zero => exact fun s w hw => Or.inl hw
  | succ n ih =>
    intro s w hw
    rw [addBlobProcs] at hw
    rcases mem_insertEv.mp hw with rfl | hw
    · exact Or.inr ⟨n, Nat.lt_succ_self n, Or.inr rfl⟩
    · rcases mem_insertEv.mp hw with rfl | hw
      · exact Or.inr ⟨n, Nat.lt_succ_self n, Or.inl rfl⟩
      · rcases ih s w hw with h | ⟨j, hj, h⟩
        · exact Or.inl h
        · exact Or.inr ⟨j, Nat.lt_succ_of_lt hj, h⟩

/-- Every event of the freshly built queue is the forest timer, a sleep
timer, or a token-0 foraging timer of a blob below the roster size. -/
theorem initState_queue_shape (str : Nat → Nat) :
    ∀ w ∈ (initState str).queue, w.tgt = Target.sunset ∨
      ∃ i, i < NUM_BLOB ∧ (w.tgt = Target.sleepWake i ∨ w.tgt = Target.huntForaged i 0) := by
  intro w hw
  rcases addBlobProcs_queue_shape str NUM_BLOB _ w hw with h | h
  · rcases mem_insertEv.mp h with rfl | h
    · exact Or.inl rfl
    · simp [emptyState] at h
  · exact Or.inr h

theorem tokle_initState (str : Nat → Nat) : TokLe (initState str) := by
  intro w hw i tok hh
  rcases initState_queue_shape str w hw with h3 | ⟨j, _, h3 | h3⟩ <;>
    rcases hh with hh | hh | hh <;> rw [h3] at hh <;> simp at hh
  obtain ⟨rfl, rfl⟩ := hh
  exact Nat.zero_le _

/-- Each blob's initial foraging timer is pending. -/
theorem initState_forage_mem (str : Nat → Nat) :
    ∀ i, i < NUM_BLOB → ∃ w ∈ (initState str).queue, w.tgt = Target.huntForaged i 0 := by
  have key : ∀ (n : Nat) (s : SimState), ∀ i, i < n →
      ∃ w ∈ (addBlobProcs str n s).queue, w.tgt = Target.huntForaged i 0 := by
    intro n
    induction n with
    | zero => intro s i hi; exact absurd hi (Nat.not_lt_zero i)
    | succ n ih =>
      intro s i hi
      rcases Nat.lt_succ_iff_lt_or_eq.mp hi with hi | rfl
      · obtain ⟨w, hwmem, hwt⟩ := ih s i hi
        exact ⟨w, mem_insertEv_of_mem (mem_insertEv_of_mem hwmem), hwt⟩
      · exact ⟨_, self_mem_insertEv, rfl⟩
  exact key NUM_BLOB _

theorem huntlive_initState (str : Nat → Nat) : HuntLive (initState str) := by
  intro i hi _
  obtain ⟨w, hwmem, hwt⟩ := initState_forage_mem str i hi
  refine ⟨w, hwmem, Or.inl ?_⟩
  rw [hwt, initState_blobs]

theorem inv_initState (str : Nat → Nat) : Inv (initState str) :=
  ⟨invA_initState str, invB_initState str, qwf_initState str,
   tokle_initState str, huntlive_initState str⟩

theorem inv_step {str : Nat → Nat} {s s2 : SimState} (h : Inv s)
    (hs : step str s = some s2) : Inv s2 :=
  ⟨invA_step h.1 hs, invB_step h.2.1 hs, qwf_step h.2.2.1 hs,
   tokle_step h.1 h.2.2.2.1 hs, huntlive_step h.1 h.2.1 h.2.2.2.2 hs⟩

theorem reachable_inv {str : Nat → Nat} {s : SimState} (h : Reachable str s) : Inv s := by
  induction h with
  | init => exact inv_initState str
  | next _ hs ih => exact inv_step ih hs

/-! ## Alive is only ever written to false -/

theorem alive_false_dispatch (str : Nat → Nat) (ev : Ev) {s : SimState} (i : Nat)
    (h : (s.blobs i).alive = false) : ((dispatch str ev s).blobs i).alive = false := by
  unfold dispatch
  cases ev.tgt with
  | sunset =>
    simp only [doSunset]
    split
    · have key : ∀ (lst : List (Nat × Nat)) (s3 : SimState), (s3.blobs i).alive = false →
          ((lst.foldl (fun acc w => schedule acc 0 (Target.huntGot w.1 w.2)) s3).blobs i).alive
            = false := by
        intro lst
        induction lst with
        | nil => exact fun s3 h3 => h3
        | cons a l ih => exact fun s3 h3 => ih _ h3
      exact key _ _ h
    · exact h
  | growthDone => exact h
  | dayStart => exact h
  | sleepWake j =>
    simp only [doSleepWake]
    split
    · split
      · exact h
      · rw [schedule_blobs]
        have key : ∀ (c : Prop) (inst : Decidable c) (s3 : SimState),
            (s3.blobs i).alive = false →
            (((@ite _ c inst (schedule s3 DAYLIGHT (Target.sleepWake j)) s3).blobs) i).alive
              = false := by
          intro c inst s3 h3
          split
          · exact h3
          · exact h3
        apply key
        by_cases hji : i = j
        · subst hji
          rw [setBlob_blobs_self]
          by_cases hf : (s.blobs i).food_eaten < (s.blobs i).food_requirements <;> simp [hf, h]
        · rwa [setBlob_blobs_ne _ _ _ _ hji]
    · split
      · exact h
      · exact h
  | huntForaged j tok =>
    simp only [doHuntForaged]
    split
    · exact h
    · split
      · split
        · rw [schedule_blobs]
          by_cases hji : i = j
          · subst hji
            rw [setBlob_blobs_self]
            simpa using h
          · rwa [setBlob_blobs_ne _ _ _ _ hji]
        · by_cases hji : i = j
          · subst hji
            rw [setBlob_blobs_self]
            simpa using h
          · rwa [setBlob_blobs_ne _ _ _ _ hji]
      · simp only [huntLoopHead]
        split
        · rw [schedule_blobs]
          by_cases hji : i = j
          · subst hji
            rw [setBlob_blobs_self]
            simpa using h
          · rwa [setBlob_blobs_ne _ _ _ _ hji]
        · by_cases hji : i = j
          · subst hji
            rw [setBlob_blobs_self]
            simpa using h
          · rwa [setBlob_blobs_ne _ _ _ _ hji]
  | huntLoop j tok =>
    simp only [doHuntLoop]
    split
    · exact h
    · simp only [huntLoopHead]
      split
      · rw [schedule_blobs]
        by_cases hji : i = j
        · subst hji
          rw [setBlob_blobs_self]
          simpa using h
        · rwa [setBlob_blobs_ne _ _ _ _ hji]
      · by_cases hji : i = j
        · subst hji
          rw [setBlob_blobs_self]
          simpa using h
        · rwa [setBlob_blobs_ne _ _ _ _ hji]
  | huntGot j tok =>
    simp only [doHuntGot]
    split
    · exact h
    · rw [schedule_blobs]
      by_cases hji : i = j
      · subst hji
        rw [setBlob_blobs_self]
        simpa using h
      · rwa [setBlob_blobs_ne _ _ _ _ hji]

/-! ## Claim theorems -/

/-- C2: at every reachable state of the simulation the food container's
level satisfies `0 ≤ level ≤ capacity`.  The source builds
`simpy.Container(env, init=INITIAL_FOOD)` with the capacity argument left
at its default `float('inf')` (modelled as `none`), so the upper bound is
the vacuous one; no sequence of hunt `get(1)` calls and `food_growth` puts
ever drives the level negative or above the capacity. -/
theorem c2_level_invariant (str : Nat → Nat) (s : SimState) (h : Reachable str s) :
    0 ≤ s.food.level ∧ ∀ c, s.food.capacity = some c → s.food.level ≤ c := by
  obtain ⟨⟨hcap, hlvl, -, -⟩, -⟩ := reachable_inv h
  refine ⟨hlvl, fun c hc => ?_⟩
  rw [hcap] at hc
  cases hc

/-- Witness for C2 at the initial state. -/
theorem c2_level_invariant_witness :
    0 ≤ (initState (fun _ => 1)).food.level ∧
    ∀ c, (initState (fun _ => 1)).food.capacity = some c →
      (initState (fun _ => 1)).food.level ≤ c :=
  c2_level_invariant (fun _ => 1) _ Reachable.init

/-- C3: every Blob's `alive` flag is monotone: it is `True` at construction
and no step of the simulation ever turns it back from `False` to `True`. -/
theorem c3_alive_monotone (str : Nat → Nat) (i : Nat) :
    ((initState str).blobs i).alive = true ∧
    ∀ s s2 : SimState, step str s = some s2 →
      (s.blobs i).alive = false → (s2.blobs i).alive = false := by
  constructor
  · rw [initState_blobs]
  · intro s s2 hs h
    obtain ⟨-, ev, rest, hq, -, hdisp⟩ := step_elim hs
    subst hdisp
    exact alive_false_dispatch str ev i h

/-- Witness for C3: one concrete step of a state whose blob 0 is dead. -/
theorem c3_alive_monotone_witness :
    ((initState (fun _ => 1)).blobs 0).alive = true ∧
    ((c3DeadState.blobs 0).alive = false →
      ((runN (fun _ => 1) 1 c3DeadState).blobs 0).alive = false) :=
  ⟨(c3_alive_monotone (fun _ => 1) 0).1,
   (c3_alive_monotone (fun _ => 1) 0).2 c3DeadState _ rfl⟩

/-- C5: the simulation is deterministic: two runs with identical
configuration and identical `time_to_food` output sequences produce
identical final blob states and food levels, for any step budget. -/
theorem c5_deterministic (f g : Nat → Nat) (h : ∀ n, f n = g n) (fuel i : Nat) :
    ((runN f fuel (initState f)).blobs i).alive
        = ((runN g fuel (initState g)).blobs i).alive ∧
    ((runN f fuel (initState f)).blobs i).food_eaten
        = ((runN g fuel (initState g)).blobs i).food_eaten ∧
    (runN f fuel (initState f)).food.level = (runN g fuel (initState g)).food.level := by
  have hfg : f = g := funext h
  subst hfg
  exact ⟨rfl, rfl, rfl⟩

/-- Witness for C5 on a concrete pair of equal streams. -/
theorem c5_deterministic_witness :
    ((runN (fun _ => 1) 0 (initState (fun _ => 1))).blobs 0).alive
        = ((runN (fun _ => 1) 0 (initState (fun _ => 1))).blobs 0).alive ∧
    ((runN (fun _ => 1) 0 (initState (fun _ => 1))).blobs 0).food_eaten
        = ((runN (fun _ => 1) 0 (initState (fun _ => 1))).blobs 0).food_eaten ∧
    (runN (fun _ => 1) 0 (initState (fun _ => 1))).food.level
        = (runN (fun _ => 1) 0 (initState (fun _ => 1))).food.level :=
  c5_deterministic (fun _ => 1) (fun _ => 1) (fun _ => rfl) 0 0

/-- C8: a hunt process calls `get(1)` only after observing `level > 0` in
the same atomic dispatch, so every such get is fulfilled immediately: in
every reachable state, and after any further step, the container's
blocking wait queue is empty and no hunt process is parked on it. -/
theorem c8_no_blocking (str : Nat → Nat) (s : SimState) (h : Reachable str s) :
    s.food.getWaiters = [] ∧ (∀ i, (s.blobs i).huntBlocked = false) ∧
    ∀ s2, step str s = some s2 →
      s2.food.getWaiters = [] ∧ ∀ i, (s2.blobs i).huntBlocked = false := by
  have hA := (reachable_inv h).1
  exact ⟨hA.2.2.1, hA.2.2.2,
    fun s2 hs => ⟨(invA_step hA hs).2.2.1, (invA_step hA hs).2.2.2⟩⟩

/-- Witness for C8 at the initial state. -/
theorem c8_no_blocking_witness :
    (initState (fun _ => 1)).food.getWaiters = [] ∧
    (∀ i, ((initState (fun _ => 1)).blobs i).huntBlocked = false) ∧
    ∀ s2, step (fun _ => 1) (initState (fun _ => 1)) = some s2 →
      s2.food.getWaiters = [] ∧ ∀ i, (s2.blobs i).huntBlocked = false :=
  c8_no_blocking (fun _ => 1) _ Reachable.init

/-- C10: whenever `sleep` calls `hunt_proc.interrupt()`, the guard
`self.isHunting` guarantees the hunt process has not terminated and is
parked on a pending timeout with its current token, so the runtime-error
branch of interrupting a terminated process is unreachable: no reachable
state is crashed, and no step crashes. -/
theorem c10_interrupt_safe (str : Nat → Nat) (s : SimState) (h : Reachable str s) :
    s.crashed = false ∧
    (∀ i, i < NUM_BLOB → (s.blobs i).isHunting = true →
      (s.blobs i).huntDone = false ∧
      ∃ w ∈ s.queue, w.tgt = Target.huntForaged i ((s.blobs i).huntTok) ∨
        w.tgt = Target.huntLoop i ((s.blobs i).huntTok)) ∧
    ∀ s2, step str s = some s2 → s2.crashed = false := by
  obtain ⟨hA, hB, hQ, hT, hH⟩ := reachable_inv h
  exact ⟨hB.1, fun i hi hh => ⟨hB.2.1 i hh, hH i hi hh⟩,
    fun s2 hs => (invB_step hB hs).1⟩

/-- Witness for C10 at the initial state. -/
theorem c10_interrupt_safe_witness :
    (initState (fun _ => 1)).crashed = false ∧
    (∀ i, i < NUM_BLOB → ((initState (fun _ => 1)).blobs i).isHunting = true →
      ((initState (fun _ => 1)).blobs i).huntDone = false ∧
      ∃ w ∈ (initState (fun _ => 1)).queue,
        w.tgt = Target.huntForaged i (((initState (fun _ => 1)).blobs i).huntTok) ∨
        w.tgt = Target.huntLoop i (((initState (fun _ => 1)).blobs i).huntTok)) ∧
    ∀ s2, step (fun _ => 1) (initState (fun _ => 1)) = some s2 → s2.crashed = false :=
  c10_interrupt_safe (fun _ => 1) _ Reachable.init

/-- C1 counterexample: in `Blob.sleep` the survival evaluation and the
`food_eaten` reset sit INSIDE `if self.isHunting:`, so a wake that finds
`isHunting = false` (every day-start wake) performs neither; the handler
the claim describes would evaluate survival unconditionally and kill this
blob (`food_eaten = 0 < 1 = food_requirements`). -/
theorem c1_counterexample :
    (c1State.blobs 0).isHunting = false ∧
    (c1State.blobs 0).food_eaten < (c1State.blobs 0).food_requirements ∧
    ((doSleepWake 0 c1State).blobs 0).alive = true ∧
    (sleepWakeClaimed (c1State.blobs 0)).alive = false ∧
    (doSleepWake 0 c1State).blobs 0 ≠ sleepWakeClaimed (c1State.blobs 0) := by
  decide

/-- C1 amended: on each sleep wake the interrupt, the survival evaluation
and the reset all sit inside the `is_hunting` guard: when the blob is
hunting, the wake interrupts the hunt process (bumping its timer token and
scheduling its nighttime resumption), sets `is_hunting` to false, sets
`alive` to false exactly when `food_eaten < food_requirements`, and resets
`food_eaten` to 0; when the blob is not hunting the wake leaves the blob's
state unchanged. -/
theorem c1_amended (s : SimState) (i : Nat) (hnd : (s.blobs i).huntDone = false) :
    ((s.blobs i).isHunting = true →
      (doSleepWake i s).blobs i =
        { s.blobs i with
          isHunting := false,
          alive := if (s.blobs i).food_eaten < (s.blobs i).food_requirements then false
            else (s.blobs i).alive,
          food_eaten := 0,
          huntTok := (s.blobs i).huntTok + 1 } ∧
      ∃ e2, (⟨s.time + NIGHTTIME, e2, Target.huntLoop i ((s.blobs i).huntTok + 1)⟩ : Ev)
        ∈ (doSleepWake i s).queue) ∧
    ((s.blobs i).isHunting = false → (doSleepWake i s).blobs i = s.blobs i) := by
  constructor
  · intro hhunt
    simp only [doSleepWake, hhunt, hnd, if_true, Bool.false_eq_true, if_false]
    constructor
    · split <;> split <;> simp
    · split <;> split <;> exact ⟨_, self_mem_insertEv⟩
  · intro hnothunt
    simp only [doSleepWake, hnothunt, Bool.false_eq_true, if_false]
    split
    · rfl
    · rfl

/-- C4: when a blob's foraging timer expires with its current token: if the
container's level is positive, the `get(1)` is performed (the level drops
by one), `food_eaten` is incremented by exactly one, and the process
suspends for `TIME_AFTER_EAT` before re-entering its hunting loop; if the
level is zero the attempt is skipped, `food_eaten` is unchanged, and a new
foraging timer is started at the same instant (`isHunting` stays true). -/
theorem c4_hunt_forage (str : Nat → Nat) (s : SimState) (i tok t e : Nat) (rest : List Ev)
    (hq : s.queue = ⟨t, e, Target.huntForaged i tok⟩ :: rest)
    (hlive : tok = (s.blobs i).huntTok)
    (halive : (s.blobs i).alive = true)
    (ht : t < simHorizon) (hcr : s.crashed = false) :
    ∃ s2, step str s = some s2 ∧
      (0 < s.food.level →
        s2.food.level = s.food.level - 1 ∧
        (s2.blobs i).food_eaten = (s.blobs i).food_eaten + 1 ∧
        (⟨t + TIME_AFTER_EAT, s.nextEid, Target.huntLoop i tok⟩ : Ev) ∈ s2.queue) ∧
      (s.food.level = 0 →
        s2.food.level = s.food.level ∧
        (s2.blobs i).food_eaten = (s.blobs i).food_eaten ∧
        (s2.blobs i).isHunting = true ∧
        (⟨t + str s.sampleIdx, s.nextEid, Target.huntForaged i tok⟩ : Ev) ∈ s2.queue) := by
  have hstep : step str s = some (dispatch str ⟨t, e, Target.huntForaged i tok⟩
      { s with time := t, queue := rest }) := by
    unfold step
    rw [hcr, hq]
    simp [Nat.not_le_of_lt ht]
  refine ⟨_, hstep, ?_, ?_⟩
  · intro hlvl
    simp only [dispatch, doHuntForaged]
    rw [if_neg (by simp [hlive]), if_pos hlvl, if_pos (by omega : (1:Int) ≤ s.food.level)]
    refine ⟨rfl, by simp, ?_⟩
    exact self_mem_insertEv
  · intro hlvl0
    simp only [dispatch, doHuntForaged]
    rw [if_neg (by simp [hlive]), if_neg (by omega : ¬ (0:Int) < s.food.level)]
    simp only [huntLoopHead]
    rw [if_pos halive]
    refine ⟨rfl, by simp, by simp, ?_⟩
    rw [hlive]
    exact self_mem_insertEv

/-- Witness for C4 at a concrete state. -/
theorem c4_hunt_forage_witness :
    ∃ s2, step (fun _ => 1) c4State = some s2 ∧
      (0 < c4State.food.level →
        s2.food.level = c4State.food.level - 1 ∧
        (s2.blobs 0).food_eaten = (c4State.blobs 0).food_eaten + 1 ∧
        (⟨3 + TIME_AFTER_EAT, c4State.nextEid, Target.huntLoop 0 0⟩ : Ev) ∈ s2.queue) ∧
      (c4State.food.level = 0 →
        s2.food.level = c4State.food.level ∧
        (s2.blobs 0).food_eaten = (c4State.blobs 0).food_eaten ∧
        (s2.blobs 0).isHunting = true ∧
        (⟨3 + (fun _ => 1) c4State.sampleIdx, c4State.nextEid,
          Target.huntForaged 0 0⟩ : Ev) ∈ s2.queue) :=
  c4_hunt_forage (fun _ => 1) c4State 0 0 3 2 [] rfl rfl rfl (by decide) rfl

theorem step_level_of_not_food {str : Nat → Nat} {s s2 : SimState}
    (hs : step str s = some s2) (hnf : ¬ foodStep s) : s2.food.level = s.food.level := by
  obtain ⟨-, ev, rest, hq, -, hdisp⟩ := step_elim hs
  subst hdisp
  unfold dispatch
  cases htgt : ev.tgt with
  | sunset =>
    exact absurd (by rw [foodStep, hq]; exact Or.inl htgt) hnf
  | growthDone => rfl
  | dayStart => rfl
  | sleepWake i =>
    simp only [doSleepWake]
    split
    · split
      · rfl
      · split <;> split <;> rfl
    · split <;> rfl
  | huntForaged i tok =>
    simp only [doHuntForaged]
    split
    · rfl
    next hlive =>
      rw [not_ne_iff] at hlive
      split
      next hpos =>
        exact absurd (by rw [foodStep, hq]; exact Or.inr ⟨i, tok, htgt, hlive, hpos⟩) hnf
      · simp only [huntLoopHead]
        split <;> rfl
  | huntLoop i tok =>
    simp only [doHuntLoop]
    split
    · rfl
    · simp only [huntLoopHead]
      split <;> rfl
  | huntGot i tok =>
    simp only [doHuntGot]
    split <;> rfl

theorem level_const_of_nofood {str : Nat → Nat} {s s2 : SimState}
    (h : StepsNoFood str s s2) : s2.food.level = s.food.level := by
  induction h with
  | refl => rfl
  | tail _ hnf hs ih => rw [step_level_of_not_food hs hnf, ih]

/-- C6: at each day-to-night transition the Forest performs exactly one put
of `FODD_RATE_PRODUCTION` into the food container (the level rises by
exactly the production rate, and stays at or below any finite capacity —
the container's capacity is unbounded here) and then holds for the fixed
`NIGHTTIME`: the continuation event scheduled at the same instant parks
`day_cycle` until exactly `t + NIGHTTIME`.  Consequently, along any steps
in which no get (and no further sunset) occurs, the level stays at the
nightfall level plus the production rate. -/
theorem c6_night_production (str : Nat → Nat) (s : SimState) (t e : Nat) (rest : List Ev)
    (hq : s.queue = ⟨t, e, Target.sunset⟩ :: rest)
    (ht : t < simHorizon) (hcr : s.crashed = false)
    (hcap : s.food.capacity = none) (hw : s.food.getWaiters = []) :
    ∃ s2, step str s = some s2 ∧
      s2.food.level = s.food.level + FODD_RATE_PRODUCTION ∧
      (∀ c, s2.food.capacity = some c → s2.food.level ≤ c) ∧
      (⟨t, s.nextEid, Target.growthDone⟩ : Ev) ∈ s2.queue ∧
      (∀ s3 t2 e2 rest2, s3.queue = ⟨t2, e2, Target.growthDone⟩ :: rest2 →
        t2 < simHorizon → s3.crashed = false →
        ∃ s4, step str s3 = some s4 ∧
          (⟨t2 + NIGHTTIME, s3.nextEid, Target.dayStart⟩ : Ev) ∈ s4.queue) ∧
      (∀ s3, StepsNoFood str s2 s3 → s3.food.level = s2.food.level) := by
  have hstep : step str s = some (dispatch str ⟨t, e, Target.sunset⟩
      { s with time := t, queue := rest }) := by
    unfold step
    rw [hcr, hq]
    simp [Nat.not_le_of_lt ht]
  have hok : s.food.putOk FODD_RATE_PRODUCTION = true := by
    simp [Container.putOk, hcap]
  refine ⟨_, hstep, ?_, ?_, ?_, ?_, ?_⟩
  · simp only [dispatch, doSunset, hok, if_true, hw, serviceGets, List.foldl_nil]
    rfl
  · intro c hc
    have hcap2 : (dispatch str ⟨t, e, Target.sunset⟩
        { s with time := t, queue := rest }).food.capacity = s.food.capacity := by
      simp only [dispatch, doSunset, hok, if_true, hw, serviceGets, List.foldl_nil]
      rfl
    rw [hcap2, hcap] at hc
    cases hc
  · simp only [dispatch, doSunset, hok, if_true, hw, serviceGets, List.foldl_nil]
    simpa [schedule_queue] using self_mem_insertEv
  · intro s3 t2 e2 rest2 hq3 ht3 hcr3
    have hstep3 : step str s3 = some (dispatch str ⟨t2, e2, Target.growthDone⟩
        { s3 with time := t2, queue := rest2 }) := by
      unfold step
      rw [hcr3, hq3]
      simp [Nat.not_le_of_lt ht3]
    refine ⟨_, hstep3, ?_⟩
    simp only [dispatch, doGrowthDone]
    exact self_mem_insertEv
  · intro s3 h3
    exact level_const_of_nofood h3

/-- Witness for C6 at a concrete nightfall state. -/
theorem c6_night_production_witness :
    ∃ s2, step (fun _ => 1) c6State = some s2 ∧
      s2.food.level = c6State.food.level + FODD_RATE_PRODUCTION ∧
      (∀ c, s2.food.capacity = some c → s2.food.level ≤ c) ∧
      (⟨720, c6State.nextEid, Target.growthDone⟩ : Ev) ∈ s2.queue ∧
      (∀ s3 t2 e2 rest2, s3.queue = ⟨t2, e2, Target.growthDone⟩ :: rest2 →
        t2 < simHorizon → s3.crashed = false →
        ∃ s4, step (fun _ => 1) s3 = some s4 ∧
          (⟨t2 + NIGHTTIME, s3.nextEid, Target.dayStart⟩ : Ev) ∈ s4.queue) ∧
      (∀ s3, StepsNoFood (fun _ => 1) s2 s3 → s3.food.level = s2.food.level) :=
  c6_night_production (fun _ => 1) c6State 720 0 [] rfl (by decide) rfl rfl rfl

theorem hunt_parked_step {str : Nat → Nat} {s s2 : SimState} {i w tok : Nat}
    (hA : InvA s) (hP : HuntParked i w tok s) (hs : step str s = some s2)
    (hlt : s2.time < w) :
    HuntParked i w tok s2 ∧ (s2.blobs i).food_eaten = (s.blobs i).food_eaten := by
  obtain ⟨hP1, hP2, hP3, ⟨r, hrmem, hrt, hrtime⟩, hP5⟩ := hP
  obtain ⟨-, ev, rest, hq, -, hdisp⟩ := step_elim hs
  have hs2time : s2.time = ev.time := by
    subst hdisp
    unfold dispatch
    cases ev.tgt with
    | sunset =>
      simp only [doSunset]
      split
      · have key : ∀ (lst : List (Nat × Nat)) (s3 : SimState),
            (lst.foldl (fun acc v => schedule acc 0 (Target.huntGot v.1 v.2)) s3).time
              = s3.time := by
          intro lst
          induction lst with
          | nil => exact fun s3 => rfl
          | cons a l ih => exact fun s3 => ih _
        rw [key]
        rfl
      · rfl
    | growthDone => rfl
    | dayStart => rfl
    | sleepWake j =>
      simp only [doSleepWake]
      split
      · split
        · rfl
        · split <;> split <;> rfl
      · split <;> rfl
    | huntForaged j tok2 =>
      simp only [doHuntForaged]
      split
      · rfl
      · split
        · split
          · rfl
          · rfl
        · simp only [huntLoopHead]
          split <;> rfl
    | huntLoop j tok2 =>
      simp only [doHuntLoop]
      split
      · rfl
      · simp only [huntLoopHead]
        split <;> rfl
    | huntGot j tok2 =>
      simp only [doHuntGot]
      split <;> rfl
  subst hdisp
  rw [hs2time] at hlt
  have hrrest : r ∈ rest := by
    rw [hq] at hrmem
    rcases List.mem_cons.mp hrmem with rfl | h
    · exact absurd hrtime (by omega)
    · exact h
  have key : ∀ (s3 : SimState), s3.blobs i = s.blobs i →
      (∀ u ∈ rest, u ∈ s3.queue) →
      (∀ w2 ∈ s3.queue, w2 ∈ rest ∨ ∀ tok2, ¬ evHunt w2 i tok2) →
      HuntParked i w tok s3 ∧ (s3.blobs i).food_eaten = (s.blobs i).food_eaten := by
    intro s3 hb hup hdown
    refine ⟨⟨by rw [hb]; exact hP1, by rw [hb]; exact hP2, by rw [hb]; exact hP3,
      ⟨r, hup r hrrest, hrt, hrtime⟩, ?_⟩, by rw [hb]⟩
    intro w2 hw2 tok2 hh
    rcases hdown w2 hw2 with hw2r | hno
    · exact hP5 w2 (hq ▸ List.mem_cons_of_mem _ hw2r) tok2 hh
    · exact absurd hh (hno tok2)
  unfold dispatch
  cases htgt : ev.tgt with
  | sunset =>
    have hok : s.food.putOk FODD_RATE_PRODUCTION = true := by
      simp [Container.putOk, hA.1]
    simp only [doSunset, hA.2.2.1, hok, if_true, serviceGets, List.foldl_nil]
    apply key
    · rfl
    · exact fun u hu => mem_insertEv_of_mem hu
    · intro w2 hw2
      rcases mem_insertEv.mp hw2 with rfl | hw2
      · exact Or.inr (fun tok2 => by simp [evHunt])
      · exact Or.inl hw2
  | growthDone =>
    apply key
    · rfl
    · exact fun u hu => mem_insertEv_of_mem hu
    · intro w2 hw2
      rcases mem_insertEv.mp hw2 with rfl | hw2
      · exact Or.inr (fun tok2 => by simp [evHunt])
      · exact Or.inl hw2
  | dayStart =>
    apply key
    · rfl
    · exact fun u hu => mem_insertEv_of_mem hu
    · intro w2 hw2
      rcases mem_insertEv.mp hw2 with rfl | hw2
      · exact Or.inr (fun tok2 => by simp [evHunt])
      · exact Or.inl hw2
  | sleepWake j =>
    by_cases hji : j = i
    · subst hji
      simp only [doSleepWake, hP1, Bool.false_eq_true, if_false]
      split
      · apply key
        · rfl
        · exact fun u hu => mem_insertEv_of_mem hu
        · intro w2 hw2
          rcases mem_insertEv.mp hw2 with rfl | hw2
          · exact Or.inr (fun tok2 => by simp [evHunt])
          · exact Or.inl hw2
      · have hk := key { s with time := ev.time, queue := rest } rfl
          (fun u hu => hu) (fun w2 hw2 => Or.inl hw2)
        exact ⟨hk.1, by trivial⟩
    · simp only [doSleepWake]
      split
      · split
        · have hk := key { s with time := ev.time, queue := rest } rfl
            (fun u hu => hu) (fun w2 hw2 => Or.inl hw2)
          exact ⟨hk.1, by trivial⟩
        · split
          next =>
            simp only [Bool.false_eq_true, if_false]
            apply key
            · rw [schedule_blobs, setBlob_blobs_ne _ _ _ _ (Ne.symm hji)]
            · exact fun u hu => mem_insertEv_of_mem hu
            · intro w2 hw2
              rcases mem_insertEv.mp hw2 with rfl | hw2
              · exact Or.inr (fun tok2 => by simp [evHunt, hji])
              · exact Or.inl hw2
          next =>
            split
            · apply key
              · rw [schedule_blobs, schedule_blobs,
                  setBlob_blobs_ne _ _ _ _ (Ne.symm hji)]
              · exact fun u hu => mem_insertEv_of_mem (mem_insertEv_of_mem hu)
              · intro w2 hw2
                rcases mem_insertEv.mp hw2 with rfl | hw2
                · exact Or.inr (fun tok2 => by simp [evHunt, hji])
                · rcases mem_insertEv.mp hw2 with rfl | hw2
                  · exact Or.inr (fun tok2 => by simp [evHunt])
                  · exact Or.inl hw2
            · apply key
              · rw [schedule_blobs, setBlob_blobs_ne _ _ _ _ (Ne.symm hji)]
              · exact fun u hu => mem_insertEv_of_mem hu
              · intro w2 hw2
                rcases mem_insertEv.mp hw2 with rfl | hw2
                · exact Or.inr (fun tok2 => by simp [evHunt, hji])
                · exact Or.inl hw2
      · split
        · apply key
          · rfl
          · exact fun u hu => mem_insertEv_of_mem hu
          · intro w2 hw2
            rcases mem_insertEv.mp hw2 with rfl | hw2
            · exact Or.inr (fun tok2 => by simp [evHunt])
            · exact Or.inl hw2
        · have hk := key { s with time := ev.time, queue := rest } rfl
            (fun u hu => hu) (fun w2 hw2 => Or.inl hw2)
          exact ⟨hk.1, by trivial⟩
  | huntForaged j tok2 =>
    by_cases hji : j = i
    · subst hji
      have hstale : tok2 ≠ (s.blobs j).huntTok := by
        have h5 := hP5 ev (hq ▸ List.mem_cons_self _ _) tok2 (Or.inl htgt)
        intro hcon
        rw [hP2] at hcon
        rcases h5.2 hcon with ⟨hc1, -⟩
        rw [htgt] at hc1
        cases hc1
      simp only [doHuntForaged, if_pos hstale]
      have hk := key { s with time := ev.time, queue := rest } rfl
        (fun u hu => hu) (fun w2 hw2 => Or.inl hw2)
      exact ⟨hk.1, by trivial⟩
    · simp only [doHuntForaged]
      split
      · have hk := key { s with time := ev.time, queue := rest } rfl
          (fun u hu => hu) (fun w2 hw2 => Or.inl hw2)
        exact ⟨hk.1, by trivial⟩
      · split
        · split
          · apply key
            · rw [schedule_blobs, setBlob_blobs_ne _ _ _ _ (Ne.symm hji)]
            · exact fun u hu => mem_insertEv_of_mem hu
            · intro w2 hw2
              rcases mem_insertEv.mp hw2 with rfl | hw2
              · exact Or.inr (fun tok3 => by simp [evHunt, hji])
              · exact Or.inl hw2
          · apply key
            · rw [setBlob_blobs_ne _ _ _ _ (Ne.symm hji)]
            · exact fun u hu => hu
            · exact fun w2 hw2 => Or.inl hw2
        · simp only [huntLoopHead]
          split
          · apply key
            · rw [schedule_blobs, setBlob_blobs_ne _ _ _ _ (Ne.symm hji)]
            · exact fun u hu => mem_insertEv_of_mem hu
            · intro w2 hw2
              rcases mem_insertEv.mp hw2 with rfl | hw2
              · exact Or.inr (fun tok3 => by simp [evHunt, hji])
              · exact Or.inl hw2
          · apply key
            · rw [setBlob_blobs_ne _ _ _ _ (Ne.symm hji)]
            · exact fun u hu => hu
            · exact fun w2 hw2 => Or.inl hw2
  | huntLoop j tok2 =>
    by_cases hji : j = i
    · subst hji
      have hstale : tok2 ≠ (s.blobs j).huntTok := by
        have h5 := hP5 ev (hq ▸ List.mem_cons_self _ _) tok2 (Or.inr (Or.inl htgt))
        intro hcon
        rw [hP2] at hcon
        rcases h5.2 hcon with ⟨-, hc2⟩
        omega
      simp only [doHuntLoop, if_pos hstale]
      have hk := key { s with time := ev.time, queue := rest } rfl
        (fun u hu => hu) (fun w2 hw2 => Or.inl hw2)
      exact ⟨hk.1, by trivial⟩
    · simp only [doHuntLoop]
      split
      · have hk := key { s with time := ev.time, queue := rest } rfl
          (fun u hu => hu) (fun w2 hw2 => Or.inl hw2)
        exact ⟨hk.1, by trivial⟩
      · simp only [huntLoopHead]
        split
        · apply key
          · rw [schedule_blobs, setBlob_blobs_ne _ _ _ _ (Ne.symm hji)]
          · exact fun u hu => mem_insertEv_of_mem hu
          · intro w2 hw2
            rcases mem_insertEv.mp hw2 with rfl | hw2
            · exact Or.inr (fun tok3 => by simp [evHunt, hji])
            · exact Or.inl hw2
        · apply key
          · rw [setBlob_blobs_ne _ _ _ _ (Ne.symm hji)]
          · exact fun u hu => hu
          · exact fun w2 hw2 => Or.inl hw2
  | huntGot j tok2 =>
    by_cases hji : j = i
    · subst hji
      have hstale : tok2 ≠ (s.blobs j).huntTok := by
        have h5 := hP5 ev (hq ▸ List.mem_cons_self _ _) tok2 (Or.inr (Or.inr htgt))
        intro hcon
        rw [hP2] at hcon
        rcases h5.2 hcon with ⟨hc1, -⟩
        rw [htgt] at hc1
        cases hc1
      simp only [doHuntGot, if_pos hstale]
      have hk := key { s with time := ev.time, queue := rest } rfl
        (fun u hu => hu) (fun w2 hw2 => Or.inl hw2)
      exact ⟨hk.1, by trivial⟩
    · simp only [doHuntGot]
      split
      · have hk := key { s with time := ev.time, queue := rest } rfl
          (fun u hu => hu) (fun w2 hw2 => Or.inl hw2)
        exact ⟨hk.1, by trivial⟩
      · apply key
        · rw [schedule_blobs, setBlob_blobs_ne _ _ _ _ (Ne.symm hji)]
        · exact fun u hu => mem_insertEv_of_mem hu
        · intro w2 hw2
          rcases mem_insertEv.mp hw2 with rfl | hw2
          · exact Or.inr (fun tok3 => by simp [evHunt, hji])
          · exact Or.inl hw2

/-- Dispatching never moves the clock; only popping an event does. -/
theorem dispatch_time (str : Nat → Nat) (ev : Ev) (s : SimState) :
    (dispatch str ev s).time = s.time := by
  unfold dispatch
  cases ev.tgt with
  | sunset =>
    simp only [doSunset]
    split
    · have key : ∀ (lst : List (Nat × Nat)) (s3 : SimState),
          (lst.foldl (fun acc v => schedule acc 0 (Target.huntGot v.1 v.2)) s3).time
            = s3.time := by
        intro lst
        induction lst with
        | nil => exact fun s3 => rfl
        | cons a l ih => exact fun s3 => ih _
      rw [key]
      rfl
    · rfl
  | growthDone => rfl
  | dayStart => rfl
  | sleepWake j =>
    simp only [doSleepWake]
    split
    · split
      · rfl
      · split <;> split <;> rfl
    · split <;> rfl
  | huntForaged j tok2 =>
    simp only [doHuntForaged]
    split
    · rfl
    · split
      · split
        · rfl
        · rfl
      · simp only [huntLoopHead]
        split <;> rfl
  | huntLoop j tok2 =>
    simp only [doHuntLoop]
    split
    · rfl
    · simp only [huntLoopHead]
      split <;> rfl
  | huntGot j tok2 =>
    simp only [doHuntGot]
    split <;> rfl

theorem step_time_mono {str : Nat → Nat} {s s2 : SimState} (hQ : QWF s)
    (hs : step str s = some s2) : s.time ≤ s2.time := by
  obtain ⟨-, ev, rest, hq, -, hdisp⟩ := step_elim hs
  subst hdisp
  rw [dispatch_time]
  exact hQ.2.2 ev (hq ▸ List.mem_cons_self _ _)

theorem steps_invA {str : Nat → Nat} {s s2 : SimState} (h : InvA s)
    (hc : Steps str s s2) : InvA s2 := by
  induction hc with
  | refl => exact h
  | tail _ hs ih => exact invA_step ih hs

theorem steps_qwf {str : Nat → Nat} {s s2 : SimState} (h : QWF s)
    (hc : Steps str s s2) : QWF s2 := by
  induction hc with
  | refl => exact h
  | tail _ hs ih => exact qwf_step ih hs

theorem hunt_parked_steps {str : Nat → Nat} {s s2 : SimState} {i w tok : Nat}
    (hA : InvA s) (hQ : QWF s) (hP : HuntParked i w tok s)
    (hc : Steps str s s2) (hlt : s2.time < w) :
    HuntParked i w tok s2 ∧ (s2.blobs i).food_eaten = (s.blobs i).food_eaten := by
  induction hc with
  | refl => exact ⟨hP, rfl⟩
  | tail hc2 hs ih =>
    rename_i sa sb
    have hQa : QWF sa := steps_qwf hQ hc2
    have hlt2 : sa.time < w := Nat.lt_of_le_of_lt (step_time_mono hQa hs) hlt
    obtain ⟨hPa, hfood⟩ := ih hlt2
    obtain ⟨hPb, hfood2⟩ := hunt_parked_step (steps_invA hA hc2) hPa hs hlt
    exact ⟨hPb, by rw [hfood2, hfood]⟩

/-- C7: when a hunting blob's sleep process wakes at nighttime arrival `t`
and delivers the interrupt, the hunt process is parked for the whole night:
its pending resumption is scheduled at exactly `t + NIGHTTIME`, and along
any further steps that stay strictly before `t + NIGHTTIME` it remains so
parked — every pending hunt event of the blob other than that resumption
is a stale cancelled timer, so the process performs no `get` on the
container — and its `food_eaten` does not change in the interval.  (All
reachable states satisfy `Inv`, by `reachable_inv`.) -/
theorem c7_interrupt_window (str : Nat → Nat) (s : SimState) (i t e : Nat) (rest : List Ev)
    (hInv : Inv s)
    (hq : s.queue = ⟨t, e, Target.sleepWake i⟩ :: rest)
    (hhunt : (s.blobs i).isHunting = true)
    (ht : t < simHorizon) :
    ∃ s2, step str s = some s2 ∧
      HuntParked i (t + NIGHTTIME) ((s.blobs i).huntTok + 1) s2 ∧
      ∀ s3, Steps str s2 s3 → s3.time < t + NIGHTTIME →
        HuntParked i (t + NIGHTTIME) ((s.blobs i).huntTok + 1) s3 ∧
        (s3.blobs i).food_eaten = (s2.blobs i).food_eaten := by
  obtain ⟨hA, hB, hQ, hT, hH⟩ := hInv
  have hnd : (s.blobs i).huntDone = false := hB.2.1 i hhunt
  have hstep : step str s = some (dispatch str ⟨t, e, Target.sleepWake i⟩
      { s with time := t, queue := rest }) := by
    unfold step
    rw [hB.1, hq]
    simp [Nat.not_le_of_lt ht]
  have hTmid : ∀ w2 ∈ rest, ∀ i2 tok2, evHunt w2 i2 tok2 → tok2 ≤ (s.blobs i2).huntTok :=
    fun w2 hw2 => hT w2 (hq ▸ List.mem_cons_of_mem _ hw2)
  have hparked : HuntParked i (t + NIGHTTIME) ((s.blobs i).huntTok + 1)
      (dispatch str ⟨t, e, Target.sleepWake i⟩ { s with time := t, queue := rest }) := by
    simp only [dispatch, doSleepWake, hhunt, hnd, if_true, Bool.false_eq_true, if_false]
    refine ⟨?_, ?_, ?_, ?_, ?_⟩
    · split <;> split <;> simp
    · split <;> split <;> simp
    · split <;> split <;> simp [hnd]
    · split <;> split <;> exact ⟨_, self_mem_insertEv, rfl, rfl⟩
    · split <;> split <;>
      · intro w2 hw2 tok2 hh
        rcases mem_insertEv.mp hw2 with rfl | hw2
        · rcases hh with hh | hh | hh <;> simp at hh
          obtain ⟨-, rfl⟩ := hh
          exact ⟨Nat.le_refl _, fun _ => ⟨by simp_all, rfl⟩⟩
        · first
          | (rcases mem_insertEv.mp hw2 with rfl | hw2
             · rcases hh with hh | hh | hh <;> simp [evHunt] at hh
             · have := hTmid w2 hw2 i tok2 hh
               exact ⟨by omega, fun hcon => by omega⟩)
          | (have h9 := hTmid w2 hw2 i tok2 hh
             exact ⟨by omega, fun hcon => by omega⟩)
  refine ⟨_, hstep, hparked, ?_⟩
  intro s3 hc hlt
  exact hunt_parked_steps (invA_step hA hstep) (qwf_step hQ hstep) hparked hc hlt

theorem inv_c7State : Inv c7State := by
  refine ⟨⟨rfl, by decide, rfl, ?_⟩, ⟨rfl, ?_, ?_, ?_⟩, ⟨by decide, by decide, by decide⟩,
    ?_, ?_⟩
  · intro i
    show (if i = 0 then ({} : BlobState) else { isHunting := false }).huntBlocked = false
    split <;> rfl
  · intro i
    show (if i = 0 then ({} : BlobState) else { isHunting := false }).isHunting = true →
      (if i = 0 then ({} : BlobState) else { isHunting := false }).huntDone = false
    split <;> simp
  · intro i
    show (if i = 0 then ({} : BlobState) else { isHunting := false }).alive = false →
      (if i = 0 then ({} : BlobState) else { isHunting := false }).isHunting = false
    split <;> simp
  · intro i
    show (if i = 0 then ({} : BlobState) else { isHunting := false }).huntDone = true →
      (if i = 0 then ({} : BlobState) else { isHunting := false }).alive = false
    split <;> simp
  · intro w hw i2 tok2 hh
    rcases List.mem_cons.mp hw with rfl | hw
    · rcases hh with hh | hh | hh <;> simp [evHunt] at hh
    · rcases List.mem_cons.mp hw with rfl | hw
      · rcases hh with hh | hh | hh <;> simp at hh
        obtain ⟨rfl, rfl⟩ := hh
        exact Nat.zero_le _
      · cases hw
  · intro i hi hh
    by_cases hzero : i = 0
    · subst hzero
      refine ⟨⟨730, 2, Target.huntForaged 0 0⟩,
        List.mem_cons_of_mem _ (List.mem_cons_self _ _), Or.inl ?_⟩
      rfl
    · exact absurd hh (by simp [c7State, hzero])

/-- Witness for C7 at a concrete nightfall state. -/
theorem c7_interrupt_window_witness :
    ∃ s2, step (fun _ => 1) c7State = some s2 ∧
      HuntParked 0 (720 + NIGHTTIME) ((c7State.blobs 0).huntTok + 1) s2 ∧
      ∀ s3, Steps (fun _ => 1) s2 s3 → s3.time < 720 + NIGHTTIME →
        HuntParked 0 (720 + NIGHTTIME) ((c7State.blobs 0).huntTok + 1) s3 ∧
        (s3.blobs 0).food_eaten = (s2.blobs 0).food_eaten :=
  c7_interrupt_window (fun _ => 1) c7State 0 720 1 [⟨730, 2, Target.huntForaged 0 0⟩]
    inv_c7State rfl rfl (by decide)

/-- Witness for the amended C1 at a concrete hunting state. -/
theorem c1_amended_witness :
    (c1HuntState.blobs 0).huntDone = false ∧
    (((c1HuntState.blobs 0).isHunting = true →
      (doSleepWake 0 c1HuntState).blobs 0 =
        { c1HuntState.blobs 0 with
          isHunting := false,
          alive := if (c1HuntState.blobs 0).food_eaten <
              (c1HuntState.blobs 0).food_requirements then false
            else (c1HuntState.blobs 0).alive,
          food_eaten := 0,
          huntTok := (c1HuntState.blobs 0).huntTok + 1 } ∧
      ∃ e2, (⟨c1HuntState.time + NIGHTTIME, e2,
          Target.huntLoop 0 ((c1HuntState.blobs 0).huntTok + 1)⟩ : Ev)
        ∈ (doSleepWake 0 c1HuntState).queue) ∧
    ((c1HuntState.blobs 0).isHunting = false →
      (doSleepWake 0 c1HuntState).blobs 0 = c1HuntState.blobs 0)) :=
  ⟨rfl, c1_amended c1HuntState 0 rfl⟩

theorem DAY_eq : DAY = 1440 := rfl

theorem DAYLIGHT_eq : DAYLIGHT = 720 := rfl

theorem NIGHTTIME_eq : NIGHTTIME = 720 := rfl

theorem countP_insertEv (p : Ev → Bool) (e : Ev) (q : List Ev) :
    List.countP p (insertEv e q) = List.countP p q + (if p e then 1 else 0) := by
  induction q with
  | nil => simp [insertEv, List.countP_cons]
  | cons h t ih =>
    simp only [insertEv]
    split
    · simp only [List.countP_cons]
    · simp only [List.countP_cons, ih]
      cases p e <;> cases p h <;> simp <;> omega

theorem modeAt_tail {i : Nat} {b : BlobState} {h : Ev} {q : List Ev}
    (hm : ModeAt i b (h :: q)) : ModeAt i b q := by
  obtain ⟨h1, h2, h3⟩ := hm
  refine ⟨?_, ?_, ?_⟩
  · rw [List.countP_cons] at h1
    exact Nat.le_trans (Nat.le_add_right _ _) h1
  · exact fun hh ev hev hsl => h2 hh ev (List.mem_cons_of_mem _ hev) hsl
  · intro hh ev hev he
    obtain ⟨a, b2, c⟩ := h3 hh ev (List.mem_cons_of_mem _ hev) he
    exact ⟨a, b2, fun ws hws hsl => c ws (List.mem_cons_of_mem _ hws) hsl⟩

theorem modeAt_insert_other {i : Nat} {b : BlobState} {q : List Ev} {e : Ev}
    (hm : ModeAt i b q) (hns : e.tgt ≠ Target.sleepWake i)
    (hnh : ∀ tok, ¬ evHunt e i tok) : ModeAt i b (insertEv e q) := by
  obtain ⟨h1, h2, h3⟩ := hm
  refine ⟨?_, ?_, ?_⟩
  · rw [countP_insertEv]
    have hpe : (decide (e.tgt = Target.sleepWake i)) = false := by simp [hns]
    simp only [hpe, Bool.false_eq_true, if_false]
    omega
  · intro hh ev hev hsl
    rcases mem_insertEv.mp hev with rfl | hev
    · exact absurd hsl hns
    · exact h2 hh ev hev hsl
  · intro hh ev hev hhunt
    rcases mem_insertEv.mp hev with rfl | hev
    · exact absurd hhunt (hnh _)
    · obtain ⟨ha, hb, hc⟩ := h3 hh ev hev hhunt
      refine ⟨ha, hb, ?_⟩
      intro ws hws hsl
      rcases mem_insertEv.mp hws with rfl | hws
      · exact absurd hsl hns
      · exact hc ws hws hsl

theorem modeinv_step {str : Nat → Nat} {s s2 : SimState} (hA : InvA s) (hQ : QWF s)
    (hT : TokLe s) (hM : ModeInv s) (hs : step str s = some s2) : ModeInv s2 := by
  obtain ⟨-, ev, rest, hq, -, hdisp⟩ := step_elim hs
  subst hdisp
  have hMr : ∀ j, ModeAt j (s.blobs j) rest := fun j => modeAt_tail (hq ▸ hM j)
  have hMq : ∀ j, ModeAt j (s.blobs j) (ev :: rest) := fun j => hq ▸ hM j
  have hhead : ∀ r ∈ rest, evR ev r := (List.pairwise_cons.mp (hq ▸ hQ.2.1)).1
  have hTmid : ∀ w ∈ rest, ∀ j tok, evHunt w j tok → tok ≤ (s.blobs j).huntTok :=
    fun w hw => hT w (hq ▸ List.mem_cons_of_mem _ hw)
  unfold dispatch
  cases htgt : ev.tgt with
  | sunset =>
    have hok : s.food.putOk FODD_RATE_PRODUCTION = true := by
      simp [Container.putOk, hA.1]
    simp only [doSunset, hA.2.2.1, hok, if_true, serviceGets, List.foldl_nil]
    intro j
    exact modeAt_insert_other (hMr j) (by simp) (by intro tok; simp [evHunt])
  | growthDone =>
    intro j
    exact modeAt_insert_other (hMr j) (by simp) (by intro tok; simp [evHunt])
  | dayStart =>
    intro j
    exact modeAt_insert_other (hMr j) (by simp) (by intro tok; simp [evHunt])
  | sleepWake i =>
    have hcnt : List.countP (fun w => decide (w.tgt = Target.sleepWake i)) rest = 0 := by
      have h1 := (hMq i).1
      rw [List.countP_cons] at h1
      simp only [htgt, decide_True, if_true] at h1
      omega
    have hnosleep : ∀ ws ∈ rest, ws.tgt ≠ Target.sleepWake i := by
      intro ws hws
      have h2 := List.countP_eq_zero.mp hcnt ws hws
      simpa using h2
    have hdaymod : (s.blobs i).isHunting = true → ev.time % DAY = DAYLIGHT :=
      fun hh => (hMq i).2.1 hh ev (List.mem_cons_self _ _) htgt
    simp only [doSleepWake]
    split
    next hhunt =>
      split
      next hdone =>
        intro j
        exact hMr j
      next hnd =>
        have hmod : ev.time % DAY = DAYLIGHT := hdaymod hhunt
        split
        next hstarve =>
          simp only [Bool.false_eq_true, if_false]
          intro j
          by_cases hji : i = j
          · subst hji
            refine ⟨?_, ?_, ?_⟩
            · rw [schedule_queue, setBlob_queue, countP_insertEv]
              simp only [hcnt]
              simp
            · intro hcon
              simp at hcon
            · intro hcon ev2 hev2 hhunt2
              rw [schedule_queue, setBlob_queue] at hev2
              rcases mem_insertEv.mp hev2 with rfl | hev2
              · refine ⟨by simp, ?_, ?_⟩
                · show (ev.time + NIGHTTIME) % DAY = 0
                  rw [NIGHTTIME_eq, DAY_eq]
                  rw [DAY_eq, DAYLIGHT_eq] at hmod
                  omega
                · intro ws hws hsl
                  rw [schedule_queue, setBlob_queue] at hws
                  rcases mem_insertEv.mp hws with rfl | hws
                  · simp at hsl
                  · exact absurd hsl (hnosleep ws hws)
              · have h3 := hTmid ev2 hev2 i _ hhunt2
                simp only [schedule_blobs, setBlob_blobs_self] at h3
                omega
          · simp only [schedule_blobs, setBlob_blobs_ne _ _ _ _ (Ne.symm hji), schedule_queue,
              setBlob_queue]
            refine modeAt_insert_other (hMr j) (by simp) ?_
            intro tok2 hcon
            rcases hcon with h | h | h
            · exact absurd h (by simp)
            · exact hji (Target.huntLoop.inj h).1
            · exact absurd h (by simp)
        next hfed =>
          split
          next halive =>
            intro j
            by_cases hji : i = j
            · subst hji
              refine ⟨?_, ?_, ?_⟩
              · rw [schedule_queue, schedule_queue, setBlob_queue, countP_insertEv,
                  countP_insertEv]
                simp only [hcnt]
                simp
              · intro hcon
                simp at hcon
              · intro hcon ev2 hev2 hhunt2
                rw [schedule_queue, schedule_queue, setBlob_queue] at hev2
                rcases mem_insertEv.mp hev2 with rfl | hev2
                · refine ⟨by simp, ?_, ?_⟩
                  · show (ev.time + NIGHTTIME) % DAY = 0
                    rw [NIGHTTIME_eq, DAY_eq]
                    rw [DAY_eq, DAYLIGHT_eq] at hmod
                    omega
                  · intro ws hws hsl
                    rw [schedule_queue, schedule_queue, setBlob_queue] at hws
                    rcases mem_insertEv.mp hws with rfl | hws
                    · simp at hsl
                    · rcases mem_insertEv.mp hws with rfl | hws
                      · exact Or.inl ⟨by simp [DAYLIGHT_eq, NIGHTTIME_eq], by simp⟩
                      · exact absurd hsl (hnosleep ws hws)
                · rcases mem_insertEv.mp hev2 with rfl | hev2
                  · simp [evHunt] at hhunt2
                  · have h3 := hTmid ev2 hev2 i _ hhunt2
                    simp only [schedule_blobs, setBlob_blobs_self] at h3
                    omega
            · simp only [schedule_blobs, setBlob_blobs_ne _ _ _ _ (Ne.symm hji), schedule_queue,
                setBlob_queue]
              refine modeAt_insert_other (modeAt_insert_other (hMr j) ?_ ?_) ?_ ?_
              · intro hcon
                exact hji (Target.sleepWake.inj hcon)
              · intro tok2
                simp [evHunt]
              · simp
              · intro tok2 hcon
                rcases hcon with h | h | h
                · exact absurd h (by simp)
                · exact hji (Target.huntLoop.inj h).1
                · exact absurd h (by simp)
          next hdead =>
            intro j
            by_cases hji : i = j
            · subst hji
              refine ⟨?_, ?_, ?_⟩
              · rw [schedule_queue, setBlob_queue, countP_insertEv]
                simp only [hcnt]
                simp
              · intro hcon
                simp at hcon
              · intro hcon ev2 hev2 hhunt2
                rw [schedule_queue, setBlob_queue] at hev2
                rcases mem_insertEv.mp hev2 with rfl | hev2
                · refine ⟨by simp, ?_, ?_⟩
                  · show (ev.time + NIGHTTIME) % DAY = 0
                    rw [NIGHTTIME_eq, DAY_eq]
                    rw [DAY_eq, DAYLIGHT_eq] at hmod
                    omega
                  · intro ws hws hsl
                    rw [schedule_queue, setBlob_queue] at hws
                    rcases mem_insertEv.mp hws with rfl | hws
                    · simp at hsl
                    · exact absurd hsl (hnosleep ws hws)
                · have h3 := hTmid ev2 hev2 i _ hhunt2
                  simp only [schedule_blobs, setBlob_blobs_self] at h3
                  omega
            · simp only [schedule_blobs, setBlob_blobs_ne _ _ _ _ (Ne.symm hji), schedule_queue,
                setBlob_queue]
              refine modeAt_insert_other (hMr j) (by simp) ?_
              intro tok2 hcon
              rcases hcon with h | h | h
              · exact absurd h (by simp)
              · exact hji (Target.huntLoop.inj h).1
              · exact absurd h (by simp)
    next hnothunt =>
      have hnh2 : (s.blobs i).isHunting = false := by
        have := hnothunt
        rw [Bool.not_eq_true] at this
        exact this
      split
      next halive =>
        intro j
        by_cases hji : i = j
        · subst hji
          refine ⟨?_, ?_, ?_⟩
          · rw [schedule_queue, countP_insertEv]
            simp only [hcnt]
            simp
          · intro hcon
            have h5 : (s.blobs i).isHunting = true := hcon
            rw [hnh2] at h5
            exact absurd h5 (by simp)
          · intro hcon ev2 hev2 hhunt2
            rw [schedule_queue] at hev2
            rcases mem_insertEv.mp hev2 with rfl | hev2
            · simp [evHunt] at hhunt2
            · have hpre := (hMq i).2.2 hnh2 ev2 (List.mem_cons_of_mem _ hev2) hhunt2
              obtain ⟨ht2, hm2, hws2⟩ := hpre
              refine ⟨ht2, hm2, ?_⟩
              intro ws hws hsl
              rw [schedule_queue] at hws
              rcases mem_insertEv.mp hws with rfl | hws
              · have hh := hws2 ev (List.mem_cons_self _ _) htgt
                rcases hh with ⟨he1, he2⟩ | he3
                · right
                  show ev.time + DAYLIGHT = ev2.time + DAYLIGHT
                  omega
                · have h4 := evR_time_le (hhead ev2 hev2)
                  rw [DAYLIGHT_eq] at he3
                  omega
              · exact hws2 ws (List.mem_cons_of_mem _ hws) hsl
        · simp only [schedule_blobs, schedule_queue]
          refine modeAt_insert_other (hMr j) ?_ ?_
          · intro hcon
            exact hji (Target.sleepWake.inj hcon)
          · intro tok2
            simp [evHunt]
      next hdead =>
        intro j
        exact hMr j
  | huntForaged i tok =>
    simp only [doHuntForaged]
    split
    · intro j
      exact hMr j
    next hlive =>
      rw [not_ne_iff] at hlive
      have hhuntT : (s.blobs i).isHunting = true := by
        by_contra hc
        rw [Bool.not_eq_true] at hc
        have hpre := (hMq i).2.2 hc ev (List.mem_cons_self _ _)
          (Or.inl (by rw [htgt, hlive]))
        exact absurd hpre.1 (by rw [htgt]; simp)
      split
      · split
        · intro j
          by_cases hji : i = j
          · subst hji
            refine ⟨?_, ?_, ?_⟩
            · rw [schedule_queue, setBlob_queue, countP_insertEv]
              simp only []
              have h6 := (hMr i).1
              simp
              omega
            · intro hcon ev2 hev2 hsl
              rw [schedule_queue, setBlob_queue] at hev2
              rcases mem_insertEv.mp hev2 with rfl | hev2
              · simp at hsl
              · exact (hMr i).2.1 hhuntT ev2 hev2 hsl
            · intro hcon
              simp only [schedule_blobs, setBlob_blobs_self] at hcon
              rw [hhuntT] at hcon
              exact absurd hcon (by simp)
          · simp only [schedule_blobs, setBlob_blobs_ne _ _ _ _ (Ne.symm hji), schedule_queue,
              setBlob_queue]
            refine modeAt_insert_other (hMr j) (by simp) ?_
            intro tok2 hcon
            rcases hcon with h | h | h
            · exact absurd h (by simp)
            · exact hji (Target.huntLoop.inj h).1
            · exact absurd h (by simp)
        · omega
      · simp only [huntLoopHead]
        split
        · intro j
          by_cases hji : i = j
          · subst hji
            refine ⟨?_, ?_, ?_⟩
            · rw [schedule_queue, setBlob_queue, countP_insertEv]
              have h6 := (hMr i).1
              simp
              omega
            · intro hcon ev2 hev2 hsl
              rw [schedule_queue, setBlob_queue] at hev2
              rcases mem_insertEv.mp hev2 with rfl | hev2
              · simp at hsl
              · exact (hMr i).2.1 hhuntT ev2 hev2 hsl
            · intro hcon
              simp at hcon
          · simp only [schedule_blobs, setBlob_blobs_ne _ _ _ _ (Ne.symm hji), schedule_queue,
              setBlob_queue]
            refine modeAt_insert_other (hMr j) (by simp) ?_
            intro tok2 hcon
            rcases hcon with h | h | h
            · exact hji (Target.huntForaged.inj h).1
            · exact absurd h (by simp)
            · exact absurd h (by simp)
        · intro j
          by_cases hji : i = j
          · subst hji
            simp only [setBlob_queue, setBlob_blobs_self]
            exact ⟨(hMr i).1, fun hcon => (hMr i).2.1 hcon, fun hcon => (hMr i).2.2 hcon⟩
          · simp only [setBlob_blobs_ne _ _ _ _ (Ne.symm hji), setBlob_queue]
            exact hMr j
  | huntLoop i tok =>
    simp only [doHuntLoop]
    split
    · intro j
      exact hMr j
    next hlive =>
      rw [not_ne_iff] at hlive
      simp only [huntLoopHead]
      split
      next halive =>
        by_cases hOld : (s.blobs i).isHunting = true
        · intro j
          by_cases hji : i = j
          · subst hji
            refine ⟨?_, ?_, ?_⟩
            · rw [schedule_queue, setBlob_queue, countP_insertEv]
              have h6 := (hMr i).1
              simp
              omega
            · intro hcon ev2 hev2 hsl
              rw [schedule_queue, setBlob_queue] at hev2
              rcases mem_insertEv.mp hev2 with rfl | hev2
              · simp at hsl
              · exact (hMr i).2.1 hOld ev2 hev2 hsl
            · intro hcon
              simp at hcon
          · simp only [schedule_blobs, setBlob_blobs_ne _ _ _ _ (Ne.symm hji), schedule_queue,
              setBlob_queue]
            refine modeAt_insert_other (hMr j) (by simp) ?_
            intro tok2 hcon
            rcases hcon with h | h | h
            · exact hji (Target.huntForaged.inj h).1
            · exact absurd h (by simp)
            · exact absurd h (by simp)
        · rw [Bool.not_eq_true] at hOld
          have hpre := (hMq i).2.2 hOld ev (List.mem_cons_self _ _)
            (Or.inr (Or.inl (by rw [htgt, hlive])))
          obtain ⟨-, hmod0, hws0⟩ := hpre
          intro j
          by_cases hji : i = j
          · subst hji
            refine ⟨?_, ?_, ?_⟩
            · rw [schedule_queue, setBlob_queue, countP_insertEv]
              have h6 := (hMr i).1
              simp
              omega
            · intro hcon ws hws hsl
              rw [schedule_queue, setBlob_queue] at hws
              rcases mem_insertEv.mp hws with rfl | hws
              · simp at hsl
              · have h7 := hws0 ws (List.mem_cons_of_mem _ hws) hsl
                rcases h7 with ⟨he1, he2⟩ | he3
                · have h8 := hhead ws hws
                  rcases h8 with h8 | ⟨h8a, h8b⟩ <;> omega
                · rw [he3, DAYLIGHT_eq, DAY_eq]
                  rw [DAY_eq] at hmod0
                  omega
            · intro hcon
              simp at hcon
          · simp only [schedule_blobs, setBlob_blobs_ne _ _ _ _ (Ne.symm hji), schedule_queue,
              setBlob_queue]
            refine modeAt_insert_other (hMr j) (by simp) ?_
            intro tok2 hcon
            rcases hcon with h | h | h
            · exact hji (Target.huntForaged.inj h).1
            · exact absurd h (by simp)
            · exact absurd h (by simp)
      next hdead =>
        intro j
        by_cases hji : i = j
        · subst hji
          simp only [setBlob_queue, setBlob_blobs_self]
          exact ⟨(hMr i).1, fun hcon => (hMr i).2.1 hcon, fun hcon => (hMr i).2.2 hcon⟩
        · simp only [setBlob_blobs_ne _ _ _ _ (Ne.symm hji), setBlob_queue]
          exact hMr j
  | huntGot i tok =>
    simp only [doHuntGot]
    split
    · intro j
      exact hMr j
    next hlive =>
      rw [not_ne_iff] at hlive
      have hhuntT : (s.blobs i).isHunting = true := by
        by_contra hc
        rw [Bool.not_eq_true] at hc
        have hpre := (hMq i).2.2 hc ev (List.mem_cons_self _ _)
          (Or.inr (Or.inr (by rw [htgt, hlive])))
        exact absurd hpre.1 (by rw [htgt]; simp)
      intro j
      by_cases hji : i = j
      · subst hji
        refine ⟨?_, ?_, ?_⟩
        · rw [schedule_queue, setBlob_queue, countP_insertEv]
          have h6 := (hMr i).1
          simp
          omega
        · intro hcon ev2 hev2 hsl
          rw [schedule_queue, setBlob_queue] at hev2
          rcases mem_insertEv.mp hev2 with rfl | hev2
          · simp at hsl
          · exact (hMr i).2.1 hhuntT ev2 hev2 hsl
        · intro hcon
          simp only [schedule_blobs, setBlob_blobs_self] at hcon
          rw [hhuntT] at hcon
          exact absurd hcon (by simp)
      · simp only [schedule_blobs, setBlob_blobs_ne _ _ _ _ (Ne.symm hji), schedule_queue,
          setBlob_queue]
        refine modeAt_insert_other (hMr j) (by simp) ?_
        intro tok2 hcon
        rcases hcon with h | h | h
        · exact absurd h (by simp)
        · exact hji (Target.huntLoop.inj h).1
        · exact absurd h (by simp)

theorem addBlobProcs_sleep_time (str : Nat → Nat) : ∀ (n : Nat) (s : SimState),
    ∀ w ∈ (addBlobProcs str n s).queue, ∀ i, w.tgt = Target.sleepWake i →
      w ∈ s.queue ∨ w.time = s.time + DAYLIGHT := by
  intro n
  induction n with
  | zero => exact fun s w hw i _ => Or.inl hw
  | succ n ih =>
    intro s w hw i hsl
    rw [addBlobProcs] at hw
    rcases mem_insertEv.mp hw with rfl | hw
    · simp at hsl
    · rcases mem_insertEv.mp hw with rfl | hw
      · right
        show (addBlobProcs str n s).time + DAYLIGHT = s.time + DAYLIGHT
        rw [addBlobProcs_time]
      · exact ih s w hw i hsl

theorem startBlob_sleep_countP (str : Nat → Nat) (n i : Nat) (s : SimState) :
    List.countP (fun ev => decide (ev.tgt = Target.sleepWake i)) (startBlob str n s).queue
      = List.countP (fun ev => decide (ev.tgt = Target.sleepWake i)) s.queue
        + (if n = i then 1 else 0) := by
  simp only [startBlob, schedule_queue]
  rw [countP_insertEv, countP_insertEv]
  by_cases hni : n = i
  · subst hni
    simp
  · simp [hni]

theorem addBlobProcs_sleep_countP (str : Nat → Nat) (i : Nat) : ∀ (n : Nat) (s : SimState),
    List.countP (fun ev => decide (ev.tgt = Target.sleepWake i)) (addBlobProcs str n s).queue
      = List.countP (fun ev => decide (ev.tgt = Target.sleepWake i)) s.queue
        + (if i < n then 1 else 0) := by
  intro n
  induction n with
  | zero => simp [addBlobProcs]
  | succ n ih =>
    intro s
    rw [addBlobProcs, startBlob_sleep_countP, ih]
    by_cases h1 : n = i
    · subst h1
      simp
    · by_cases h3 : i < n
      · have h4 : i < n + 1 := by omega
        simp [h1, h3, h4]
      · have h4 : ¬ (i < n + 1) := by omega
        simp [h1, h3, h4]

theorem modeinv_initState (str : Nat → Nat) : ModeInv (initState str) := by
  intro i
  refine ⟨?_, ?_, ?_⟩
  · show List.countP _
      (addBlobProcs str NUM_BLOB (schedule emptyState DAYLIGHT Target.sunset)).queue ≤ 1
    rw [addBlobProcs_sleep_countP]
    have h0 : List.countP (fun ev => decide (ev.tgt = Target.sleepWake i))
        (schedule emptyState DAYLIGHT Target.sunset).queue = 0 := by
      simp [schedule_queue, emptyState, insertEv, List.countP_cons]
    rw [h0]
    split <;> omega
  · intro hh ev hev hsl
    rcases addBlobProcs_sleep_time str NUM_BLOB _ ev hev i hsl with h | h
    · rcases mem_insertEv.mp h with rfl | h
      · simp at hsl
      · simp [emptyState] at h
    · rw [h]
      decide
  · intro hcon
    rw [initState_blobs] at hcon
    simp at hcon

theorem steps_inv {str : Nat → Nat} {s s2 : SimState} (h : Inv s) (hc : Steps str s s2) :
    Inv s2 := by
  induction hc with
  | refl => exact h
  | tail hsteps hstep ih => exact inv_step ih hstep

theorem steps_inv_mode {str : Nat → Nat} {s s2 : SimState} (hI : Inv s) (hM : ModeInv s)
    (hc : Steps str s s2) : Inv s2 ∧ ModeInv s2 := by
  induction hc with
  | refl => exact ⟨hI, hM⟩
  | tail hsteps hstep ih =>
    exact ⟨inv_step ih.1 hstep,
      modeinv_step ih.1.1 ih.1.2.2.1 ih.1.2.2.2.1 ih.2 hstep⟩

theorem modeinv_reachable {str : Nat → Nat} {s : SimState} (h : Reachable str s) :
    ModeInv s := by
  induction h with
  | init => exact modeinv_initState str
  | next hr hs ih =>
    exact modeinv_step (reachable_inv hr).1 (reachable_inv hr).2.2.1
      (reachable_inv hr).2.2.2.1 ih hs

theorem foldl_schedule_queue_mono (lst : List (Nat × Nat)) {r : Ev} : ∀ {s : SimState},
    r ∈ s.queue →
    r ∈ (lst.foldl (fun acc w => schedule acc 0 (Target.huntGot w.1 w.2)) s).queue := by
  induction lst with
  | nil => exact fun h => h
  | cons w ws ih =>
    intro s h
    apply ih
    rw [schedule_queue]
    exact mem_insertEv_of_mem h

/-- A dispatch only inserts events: every other pending event stays pending. -/
theorem dispatch_queue_mono (str : Nat → Nat) (ev : Ev) (s : SimState) :
    ∀ r ∈ s.queue, r ∈ (dispatch str ev s).queue := by
  intro r hr
  unfold dispatch
  cases ev.tgt with
  | sunset =>
    simp only [doSunset]
    split
    · apply foldl_schedule_queue_mono
      rw [schedule_queue]
      exact mem_insertEv_of_mem hr
    · exact hr
  | growthDone => exact mem_insertEv_of_mem hr
  | dayStart => exact mem_insertEv_of_mem hr
  | sleepWake i =>
    simp only [doSleepWake]
    split
    · split
      · exact hr
      · split
        next =>
          simp only [Bool.false_eq_true, if_false, schedule_queue, setBlob_queue]
          exact mem_insertEv_of_mem hr
        next =>
          split
          · simp only [schedule_queue, setBlob_queue]
            exact mem_insertEv_of_mem (mem_insertEv_of_mem hr)
          · simp only [schedule_queue, setBlob_queue]
            exact mem_insertEv_of_mem hr
    · split
      · exact mem_insertEv_of_mem hr
      · exact hr
  | huntForaged i tok =>
    simp only [doHuntForaged]
    split
    · exact hr
    · split
      · split
        · simp only [schedule_queue, setBlob_queue]
          exact mem_insertEv_of_mem hr
        · exact hr
      · simp only [huntLoopHead]
        split
        · simp only [schedule_queue, setBlob_queue]
          exact mem_insertEv_of_mem hr
        · exact hr
  | huntLoop i tok =>
    simp only [doHuntLoop]
    split
    · exact hr
    · simp only [huntLoopHead]
      split
      · simp only [schedule_queue, setBlob_queue]
        exact mem_insertEv_of_mem hr
      · exact hr
  | huntGot i tok =>
    simp only [doHuntGot]
    split
    · exact hr
    · simp only [schedule_queue, setBlob_queue]
      exact mem_insertEv_of_mem hr

theorem foldl_schedule_sleepLB (lst : List (Nat × Nat)) {i w0 : Nat} : ∀ {s : SimState},
    SleepLB i w0 s →
    SleepLB i w0 (lst.foldl (fun acc w => schedule acc 0 (Target.huntGot w.1 w.2)) s) := by
  induction lst with
  | nil => exact fun h => h
  | cons w ws2 ih =>
    intro s h
    apply ih
    intro ws hws hsl
    rw [schedule_queue] at hws
    rcases mem_insertEv.mp hws with rfl | hws
    · simp at hsl
    · exact h ws hws hsl

theorem sleepLB_step {str : Nat → Nat} {s s2 : SimState} {i w0 : Nat}
    (hL : SleepLB i w0 s) (hs : step str s = some s2) : SleepLB i w0 s2 := by
  obtain ⟨-, ev, rest, hq, -, hdisp⟩ := step_elim hs
  subst hdisp
  have hLr : SleepLB i w0 { s with time := ev.time, queue := rest } :=
    fun ws hws => hL ws (hq ▸ List.mem_cons_of_mem _ hws)
  unfold dispatch
  cases htgt : ev.tgt with
  | sunset =>
    simp only [doSunset]
    split
    · apply foldl_schedule_sleepLB
      intro ws hws hsl
      rw [schedule_queue] at hws
      rcases mem_insertEv.mp hws with rfl | hws
      · simp at hsl
      · exact hLr ws hws hsl
    · exact hLr
  | growthDone =>
    intro ws hws hsl
    rcases mem_insertEv.mp hws with rfl | hws
    · simp at hsl
    · exact hLr ws hws hsl
  | dayStart =>
    intro ws hws hsl
    rcases mem_insertEv.mp hws with rfl | hws
    · simp at hsl
    · exact hLr ws hws hsl
  | sleepWake j =>
    have hhd : ev.tgt = Target.sleepWake j → w0 ≤ ev.time ∨ j ≠ i := by
      intro he
      by_cases hji : j = i
      · subst hji
        exact Or.inl (hL ev (hq ▸ List.mem_cons_self _ _) he)
      · exact Or.inr hji
    simp only [doSleepWake]
    split
    · split
      · exact hLr
      · have hle : j = i → w0 ≤ ev.time := by
          intro hji
          subst hji
          rcases hhd htgt with h | h
          · exact h
          · exact absurd rfl h
        split
        next =>
          simp only [Bool.false_eq_true, if_false]
          intro ws hws hsl
          rw [schedule_queue, setBlob_queue] at hws
          rcases mem_insertEv.mp hws with rfl | hws
          · simp at hsl
          · exact hLr ws hws hsl
        next =>
          split
          · intro ws hws hsl
            rw [schedule_queue, schedule_queue, setBlob_queue] at hws
            rcases mem_insertEv.mp hws with rfl | hws
            · simp at hsl
            · rcases mem_insertEv.mp hws with rfl | hws
              · show w0 ≤ ev.time + DAYLIGHT
                have h9 : j = i := by
                  have h8 : Target.sleepWake j = Target.sleepWake i := hsl
                  exact Target.sleepWake.inj h8
                have := hle h9
                omega
              · exact hLr ws hws hsl
          · intro ws hws hsl
            rw [schedule_queue, setBlob_queue] at hws
            rcases mem_insertEv.mp hws with rfl | hws
            · simp at hsl
            · exact hLr ws hws hsl
    · split
      · intro ws hws hsl
        rw [schedule_queue] at hws
        rcases mem_insertEv.mp hws with rfl | hws
        · show w0 ≤ ev.time + DAYLIGHT
          have h9 : j = i := by
            have h8 : Target.sleepWake j = Target.sleepWake i := hsl
            exact Target.sleepWake.inj h8
          have h7 : w0 ≤ ev.time := by
            rcases hhd htgt with h | h
            · exact h
            · exact absurd h9 h
          omega
        · exact hLr ws hws hsl
      · exact hLr
  | huntForaged j tok =>
    simp only [doHuntForaged]
    split
    · exact hLr
    · split
      · split
        · intro ws hws hsl
          rw [schedule_queue, setBlob_queue] at hws
          rcases mem_insertEv.mp hws with rfl | hws
          · simp at hsl
          · exact hLr ws hws hsl
        · exact hLr
      · simp only [huntLoopHead]
        split
        · intro ws hws hsl
          rw [schedule_queue, setBlob_queue] at hws
          rcases mem_insertEv.mp hws with rfl | hws
          · simp at hsl
          · exact hLr ws hws hsl
        · exact hLr
  | huntLoop j tok =>
    simp only [doHuntLoop]
    split
    · exact hLr
    · simp only [huntLoopHead]
      split
      · intro ws hws hsl
        rw [schedule_queue, setBlob_queue] at hws
        rcases mem_insertEv.mp hws with rfl | hws
        · simp at hsl
        · exact hLr ws hws hsl
      · exact hLr
  | huntGot j tok =>
    simp only [doHuntGot]
    split
    · exact hLr
    · intro ws hws hsl
      rw [schedule_queue, setBlob_queue] at hws
      rcases mem_insertEv.mp hws with rfl | hws
      · simp at hsl
      · exact hLr ws hws hsl

theorem sleepLB_steps {str : Nat → Nat} {s s2 : SimState} {i w0 : Nat}
    (hL : SleepLB i w0 s) (hc : Steps str s s2) : SleepLB i w0 s2 := by
  induction hc with
  | refl => exact hL
  | tail hsteps hstep ih => exact sleepLB_step ih hstep

/-- Pending events leave the queue only by being dispatched: if an event was
pending and is gone after some steps, one of those steps popped it. -/
theorem removed_dispatched {str : Nat → Nat} {s s3 : SimState} {ws : Ev}
    (hmem : ws ∈ s.queue) (hc : Steps str s s3) :
    ws ∉ s3.queue →
    ∃ u u2 tail, Steps str s u ∧ u.queue = ws :: tail ∧ step str u = some u2 ∧
      Steps str u2 s3 := by
  induction hc with
  | refl => exact fun hout => absurd hmem hout
  | tail hsteps hstep ih =>
    rename_i u3 u4
    intro hout
    by_cases hmid : ws ∈ u3.queue
    · obtain ⟨-, ev, rest, hq, -, hdisp⟩ := step_elim hstep
      rw [hq] at hmid
      rcases List.mem_cons.mp hmid with rfl | hmid
      · exact ⟨u3, u4, rest, hsteps, hq, hstep, Steps.refl⟩
      · exfalso
        apply hout
        rw [hdisp]
        exact dispatch_queue_mono str ev _ ws hmid
    · obtain ⟨u, u2, tail, h1, h2, h3, h4⟩ := ih hmid
      exact ⟨u, u2, tail, h1, h2, h3, Steps.tail h4 hstep⟩

theorem foldl_schedule_blobs (lst : List (Nat × Nat)) : ∀ (s : SimState),
    (lst.foldl (fun acc w => schedule acc 0 (Target.huntGot w.1 w.2)) s).blobs = s.blobs := by
  induction lst with
  | nil => exact fun _ => rfl
  | cons w ws ih =>
    intro s
    rw [List.foldl_cons, ih]
    rfl

/-- A sleep wake that finds the blob not hunting changes no blob state. -/
theorem doSleepWake_nohunt_blobs (i : Nat) (s : SimState)
    (hnh : (s.blobs i).isHunting = false) : (doSleepWake i s).blobs = s.blobs := by
  simp only [doSleepWake, hnh, Bool.false_eq_true, if_false]
  split
  · rfl
  · rfl

/-- A dispatch either leaves a blob's `food_eaten` unchanged, increments it
by exactly one (a successful foraging), or writes 0 — and the write of 0
happens only in the blob's own sleep wake, with the blob hunting. -/
theorem dispatch_food_eaten (str : Nat → Nat) (ev : Ev) (s : SimState) (i : Nat) :
    ((dispatch str ev s).blobs i).food_eaten = (s.blobs i).food_eaten ∨
    ((dispatch str ev s).blobs i).food_eaten = (s.blobs i).food_eaten + 1 ∨
    (ev.tgt = Target.sleepWake i ∧ (s.blobs i).isHunting = true ∧
      ((dispatch str ev s).blobs i).food_eaten = 0) := by
  unfold dispatch
  cases htgt : ev.tgt with
  | sunset =>
    simp only [doSunset]
    split
    · left
      rw [foldl_schedule_blobs]
      rfl
    · left
      rfl
  | growthDone =>
    left
    rfl
  | dayStart =>
    left
    rfl
  | sleepWake j =>
    simp only [doSleepWake]
    by_cases hji : j = i
    · subst hji
      split
      next hhunt =>
        split
        · left
          rfl
        · split
          next =>
            right
            right
            refine ⟨rfl, hhunt, ?_⟩
            simp only [Bool.false_eq_true, if_false, schedule_blobs, setBlob_blobs_self]
          next =>
            split
            · right
              right
              refine ⟨rfl, hhunt, ?_⟩
              simp only [schedule_blobs, setBlob_blobs_self]
            · right
              right
              refine ⟨rfl, hhunt, ?_⟩
              simp only [schedule_blobs, setBlob_blobs_self]
      next =>
        split
        · left
          rfl
        · left
          rfl
    · split
      · split
        · left
          rfl
        · split
          next =>
            left
            simp only [Bool.false_eq_true, if_false, schedule_blobs,
              setBlob_blobs_ne _ _ _ _ (Ne.symm hji)]
          next =>
            split
            · left
              simp only [schedule_blobs, setBlob_blobs_ne _ _ _ _ (Ne.symm hji)]
            · left
              simp only [schedule_blobs, setBlob_blobs_ne _ _ _ _ (Ne.symm hji)]
      · split
        · left
          rfl
        · left
          rfl
  | huntForaged j tok =>
    simp only [doHuntForaged]
    split
    · left
      rfl
    · split
      · split
        · by_cases hji : j = i
          · subst hji
            right
            left
            simp only [schedule_blobs, setBlob_blobs_self]
          · left
            simp only [schedule_blobs, setBlob_blobs_ne _ _ _ _ (Ne.symm hji)]
        · by_cases hji : j = i
          · subst hji
            left
            simp only [setBlob_blobs_self]
          · left
            simp only [setBlob_blobs_ne _ _ _ _ (Ne.symm hji)]
      · simp only [huntLoopHead]
        split
        · by_cases hji : j = i
          · subst hji
            left
            simp only [schedule_blobs, setBlob_blobs_self]
          · left
            simp only [schedule_blobs, setBlob_blobs_ne _ _ _ _ (Ne.symm hji)]
        · by_cases hji : j = i
          · subst hji
            left
            simp only [setBlob_blobs_self]
          · left
            simp only [setBlob_blobs_ne _ _ _ _ (Ne.symm hji)]
  | huntLoop j tok =>
    simp only [doHuntLoop]
    split
    · left
      rfl
    · simp only [huntLoopHead]
      split
      · by_cases hji : j = i
        · subst hji
          left
          simp only [schedule_blobs, setBlob_blobs_self]
        · left
          simp only [schedule_blobs, setBlob_blobs_ne _ _ _ _ (Ne.symm hji)]
      · by_cases hji : j = i
        · subst hji
          left
          simp only [setBlob_blobs_self]
        · left
          simp only [setBlob_blobs_ne _ _ _ _ (Ne.symm hji)]
  | huntGot j tok =>
    simp only [doHuntGot]
    split
    · left
      rfl
    · by_cases hji : j = i
      · subst hji
        right
        left
        simp only [schedule_blobs, setBlob_blobs_self]
      · left
        simp only [schedule_blobs, setBlob_blobs_ne _ _ _ _ (Ne.symm hji)]

/-- C9: for every living blob, `food_eaten` is reset to exactly 0 once per
simulated day, at the sleep process's day-boundary wake, immediately after
the survival evaluation of that same wake, and at no other point: (a) any
dispatch other than the blob's own sleep wake leaves `food_eaten`
unchanged or increments it by one (a successful foraging) — it never
resets it; (b) a sleep wake that finds the blob not hunting (the day-start
wake) leaves it unchanged; (c) a sleep wake that finds the blob hunting —
which happens only at a day boundary, `time ≡ DAYLIGHT (mod DAY)` — writes
`food_eaten = 0` in the same dispatch as the survival evaluation
(`alive` becomes false exactly when `food_eaten < food_requirements`);
afterwards every pending sleep wake of the blob sits exactly `DAYLIGHT`
later (so while the blob lives its next wake exists and is unique), any
later wake that finds the blob hunting again — the only dispatch that can
reset — is at least a full `DAY` later, and whenever the run moves past
`DAYLIGHT` after the reset, the intervening day-start wake was dispatched
and left the blob's state untouched.  The hypotheses `Inv` and `ModeInv`
hold at every reachable state by `reachable_inv` and `modeinv_reachable`. -/
theorem c9_reset_once_per_day (str : Nat → Nat) (s s2 : SimState) (i : Nat) (ev : Ev)
    (rest : List Ev) (hI : Inv s) (hMo : ModeInv s) (hq : s.queue = ev :: rest)
    (hs : step str s = some s2) :
    (ev.tgt ≠ Target.sleepWake i →
      (s2.blobs i).food_eaten = (s.blobs i).food_eaten ∨
      (s2.blobs i).food_eaten = (s.blobs i).food_eaten + 1) ∧
    (ev.tgt = Target.sleepWake i → (s.blobs i).isHunting = false →
      (s2.blobs i).food_eaten = (s.blobs i).food_eaten) ∧
    (ev.tgt = Target.sleepWake i → (s.blobs i).isHunting = true →
      (s2.blobs i).food_eaten = 0 ∧
      (s2.blobs i).alive = (if (s.blobs i).food_eaten < (s.blobs i).food_requirements
        then false else (s.blobs i).alive) ∧
      ev.time % DAY = DAYLIGHT ∧
      (∀ ws ∈ s2.queue, ws.tgt = Target.sleepWake i → ws.time = ev.time + DAYLIGHT) ∧
      ((s2.blobs i).alive = true →
        ∃ ws ∈ s2.queue, ws.tgt = Target.sleepWake i ∧ ws.time = ev.time + DAYLIGHT) ∧
      (∀ s3 t2 e2 rest2, Steps str s2 s3 →
        s3.queue = ⟨t2, e2, Target.sleepWake i⟩ :: rest2 →
        (s3.blobs i).isHunting = true → ev.time + DAY ≤ t2) ∧
      ((s2.blobs i).alive = true →
        ∀ s3, Steps str s2 s3 → ev.time + DAYLIGHT < s3.time →
        ∃ u u2 e3 tail, Steps str s2 u ∧
          u.queue = ⟨ev.time + DAYLIGHT, e3, Target.sleepWake i⟩ :: tail ∧
          (u.blobs i).isHunting = false ∧
          step str u = some u2 ∧ u2.blobs i = u.blobs i ∧ Steps str u2 s3)) := by
  obtain ⟨hcr, ev2, rest2, hq2, hlt2, hdisp⟩ := step_elim hs
  rw [hq] at hq2
  injection hq2 with hev hrest
  subst hev
  subst hrest
  refine ⟨?_, ?_, ?_⟩
  · intro hne
    subst hdisp
    rcases dispatch_food_eaten str ev { s with time := ev.time, queue := rest } i
      with h | h | h
    · exact Or.inl h
    · exact Or.inr h
    · exact absurd h.1 hne
  · intro htgt hnh
    subst hdisp
    have hd : dispatch str ev { s with time := ev.time, queue := rest }
        = doSleepWake i { s with time := ev.time, queue := rest } := by
      unfold dispatch
      rw [htgt]
    rw [hd, doSleepWake_nohunt_blobs i { s with time := ev.time, queue := rest } hnh]
  · intro htgt hhunt
    have hnd : (s.blobs i).huntDone = false := hI.2.1.2.1 i hhunt
    have hmod : ev.time % DAY = DAYLIGHT :=
      (hMo i).2.1 hhunt ev (by rw [hq]; exact List.mem_cons_self _ _) htgt
    have hcnt : List.countP (fun w => decide (w.tgt = Target.sleepWake i)) rest = 0 := by
      have h1 := (hMo i).1
      rw [hq, List.countP_cons] at h1
      simp only [htgt, decide_True, if_true] at h1
      omega
    have hnosleep : ∀ ws ∈ rest, ws.tgt ≠ Target.sleepWake i := by
      intro ws hws
      have h2 := List.countP_eq_zero.mp hcnt ws hws
      simpa using h2
    have hd : dispatch str ev { s with time := ev.time, queue := rest }
        = doSleepWake i { s with time := ev.time, queue := rest } := by
      unfold dispatch
      rw [htgt]
    have hM2 : ModeInv s2 :=
      modeinv_step hI.1 hI.2.2.1 hI.2.2.2.1 hMo hs
    have hI2 : Inv s2 := inv_step hI hs
    have hfood : (s2.blobs i).food_eaten = 0 := by
      rw [hdisp, hd]
      simp only [doSleepWake, hhunt, hnd, if_true, Bool.false_eq_true, if_false]
      split <;> split <;> simp
    have halive : (s2.blobs i).alive =
        (if (s.blobs i).food_eaten < (s.blobs i).food_requirements then false
          else (s.blobs i).alive) := by
      rw [hdisp, hd]
      simp only [doSleepWake, hhunt, hnd, if_true, Bool.false_eq_true, if_false]
      split
      next hc =>
        simp [hc]
      next hc =>
        split <;> simp [hc]
    have hsleeps : ∀ ws ∈ s2.queue, ws.tgt = Target.sleepWake i →
        ws.time = ev.time + DAYLIGHT := by
      rw [hdisp, hd]
      simp only [doSleepWake, hhunt, hnd, if_true, Bool.false_eq_true, if_false]
      split
      next hcs =>
        simp only [Bool.false_eq_true, if_false]
        intro ws hws hsl
        rw [schedule_queue, setBlob_queue] at hws
        rcases mem_insertEv.mp hws with rfl | hws
        · simp at hsl
        · exact absurd hsl (hnosleep ws hws)
      next hcs =>
        split
        next hca =>
          intro ws hws hsl
          rw [schedule_queue, schedule_queue, setBlob_queue] at hws
          rcases mem_insertEv.mp hws with rfl | hws
          · simp at hsl
          · rcases mem_insertEv.mp hws with rfl | hws
            · rfl
            · exact absurd hsl (hnosleep ws hws)
        next hca =>
          intro ws hws hsl
          rw [schedule_queue, setBlob_queue] at hws
          rcases mem_insertEv.mp hws with rfl | hws
          · simp at hsl
          · exact absurd hsl (hnosleep ws hws)
    have hnext : (s2.blobs i).alive = true →
        ∃ ws ∈ s2.queue, ws.tgt = Target.sleepWake i ∧ ws.time = ev.time + DAYLIGHT := by
      intro halive2
      rw [halive] at halive2
      rw [hdisp, hd]
      simp only [doSleepWake, hhunt, hnd, if_true, Bool.false_eq_true, if_false]
      split
      next hcs =>
        rw [if_pos hcs] at halive2
        exact absurd halive2 (by simp)
      next hcs =>
        rw [if_neg hcs] at halive2
        rw [if_pos halive2]
        refine ⟨⟨ev.time + DAYLIGHT, s.nextEid, Target.sleepWake i⟩, ?_, rfl, rfl⟩
        rw [schedule_queue, schedule_queue, setBlob_queue]
        exact mem_insertEv_of_mem self_mem_insertEv
    have hLB : SleepLB i (ev.time + DAYLIGHT) s2 :=
      fun ws hws hsl => Nat.le_of_eq (hsleeps ws hws hsl).symm
    refine ⟨hfood, halive, hmod, hsleeps, hnext, ?_, ?_⟩
    · intro s3 t2 e2 rest3 hsteps hq3 hhunt3
      have h3 := steps_inv_mode hI2 hM2 hsteps
      have hday3 : t2 % DAY = DAYLIGHT :=
        (h3.2 i).2.1 hhunt3 ⟨t2, e2, Target.sleepWake i⟩
          (by rw [hq3]; exact List.mem_cons_self _ _) rfl
      have hge : ev.time + DAYLIGHT ≤ t2 :=
        sleepLB_steps hLB hsteps ⟨t2, e2, Target.sleepWake i⟩
          (by rw [hq3]; exact List.mem_cons_self _ _) rfl
      rw [DAY_eq, DAYLIGHT_eq] at hday3
      rw [DAY_eq]
      rw [DAY_eq, DAYLIGHT_eq] at hmod
      rw [DAYLIGHT_eq] at hge
      omega
    · intro halive2 s3 hsteps hlt3
      obtain ⟨ws, hwsmem, hwstgt, hwstime⟩ := hnext halive2
      have hq3 : QWF s3 := (steps_inv_mode hI2 hM2 hsteps).1.2.2.1
      have hout : ws ∉ s3.queue := by
        intro hin
        have h5 := hq3.2.2 ws hin
        rw [hwstime] at h5
        omega
      obtain ⟨u, u2, tail, hu1, hu2, hu3, hu4⟩ := removed_dispatched hwsmem hsteps hout
      have hMu : ModeInv u := (steps_inv_mode hI2 hM2 hu1).2
      have hnhu : (u.blobs i).isHunting = false := by
        by_contra hcu
        have hcu2 : (u.blobs i).isHunting = true := by
          rwa [Bool.not_eq_false] at hcu
        have h6 := (hMu i).2.1 hcu2 ws (by rw [hu2]; exact List.mem_cons_self _ _) hwstgt
        rw [hwstime] at h6
        rw [DAY_eq, DAYLIGHT_eq] at h6
        rw [DAY_eq, DAYLIGHT_eq] at hmod
        omega
      refine ⟨u, u2, ws.eid, tail, hu1, ?_, hnhu, hu3, ?_, hu4⟩
      · obtain ⟨t, e, g⟩ := ws
        have ht : t = ev.time + DAYLIGHT := hwstime
        have hg : g = Target.sleepWake i := hwstgt
        subst ht
        subst hg
        exact hu2
      · obtain ⟨-, ev3, rest4, hq4, -, hdisp3⟩ := step_elim hu3
        rw [hu2] at hq4
        injection hq4 with hev3 hrest4
        subst hev3
        subst hrest4
        rw [hdisp3]
        have hd2 : dispatch str ws { u with time := ws.time, queue := tail }
            = doSleepWake i { u with time := ws.time, queue := tail } := by
          unfold dispatch
          rw [hwstgt]
        rw [hd2, doSleepWake_nohunt_blobs i { u with time := ws.time, queue := tail } hnhu]

theorem inv_c9State : Inv c9State := by
  refine ⟨⟨rfl, by decide, rfl, ?_⟩, ⟨rfl, ?_, ?_, ?_⟩, ⟨by decide, by decide, by decide⟩,
    ?_, ?_⟩
  · intro i
    show (if i = 0 then ({} : BlobState) else { isHunting := false }).huntBlocked = false
    split <;> rfl
  · intro i
    show (if i = 0 then ({} : BlobState) else { isHunting := false }).isHunting = true →
      (if i = 0 then ({} : BlobState) else { isHunting := false }).huntDone = false
    split <;> simp
  · intro i
    show (if i = 0 then ({} : BlobState) else { isHunting := false }).alive = false →
      (if i = 0 then ({} : BlobState) else { isHunting := false }).isHunting = false
    split <;> simp
  · intro i
    show (if i = 0 then ({} : BlobState) else { isHunting := false }).huntDone = true →
      (if i = 0 then ({} : BlobState) else { isHunting := false }).alive = false
    split <;> simp
  · intro w hw i2 tok2 hh
    rcases List.mem_cons.mp hw with rfl | hw
    · rcases hh with hh | hh | hh <;> simp [evHunt] at hh
    · rcases List.mem_cons.mp hw with rfl | hw
      · rcases hh with hh | hh | hh <;> simp at hh
        obtain ⟨rfl, rfl⟩ := hh
        exact Nat.zero_le _
      · cases hw
  · intro i hi hh
    by_cases hzero : i = 0
    · subst hzero
      refine ⟨⟨730, 2, Target.huntForaged 0 0⟩,
        List.mem_cons_of_mem _ (List.mem_cons_self _ _), Or.inl ?_⟩
      rfl
    · exact absurd hh (by simp [c9State, hzero])

theorem modeinv_c9State : ModeInv c9State := by
  intro i
  by_cases hi : i = 0
  · subst hi
    refine ⟨by decide, ?_, ?_⟩
    · intro _ ev hev hsl
      simp [c9State] at hev
      rcases hev with rfl | rfl
      · decide
      · simp at hsl
    · intro hcon
      simp [c9State] at hcon
  · refine ⟨?_, ?_, ?_⟩
    · have h0 : List.countP (fun ev => decide (ev.tgt = Target.sleepWake i))
          c9State.queue = 0 := by
        apply List.countP_eq_zero.mpr
        intro a ha
        simp [c9State] at ha
        rcases ha with rfl | rfl
        · simp
          omega
        · simp
      rw [h0]
      omega
    · intro hcon
      simp [c9State, hi] at hcon
    · intro _ ev hev hh
      simp [c9State] at hev
      rcases hev with rfl | rfl
      · rcases hh with h | h | h <;> simp at h
      · rcases hh with h | h | h
        · exact absurd (Target.huntForaged.inj h).1.symm hi
        · exact absurd h (by simp)
        · exact absurd h (by simp)

/-- Witness for C9 at a concrete nightfall state. -/
theorem c9_reset_once_per_day_witness :
    ∃ s2, step (fun _ => 1) c9State = some s2 ∧
      ((Target.sleepWake 0 ≠ Target.sleepWake 0 →
        (s2.blobs 0).food_eaten = (c9State.blobs 0).food_eaten ∨
        (s2.blobs 0).food_eaten = (c9State.blobs 0).food_eaten + 1) ∧
      (Target.sleepWake 0 = Target.sleepWake 0 → (c9State.blobs 0).isHunting = false →
        (s2.blobs 0).food_eaten = (c9State.blobs 0).food_eaten) ∧
      (Target.sleepWake 0 = Target.sleepWake 0 → (c9State.blobs 0).isHunting = true →
        (s2.blobs 0).food_eaten = 0 ∧
        (s2.blobs 0).alive =
          (if (c9State.blobs 0).food_eaten < (c9State.blobs 0).food_requirements
            then false else (c9State.blobs 0).alive) ∧
        720 % DAY = DAYLIGHT ∧
        (∀ ws ∈ s2.queue, ws.tgt = Target.sleepWake 0 → ws.time = 720 + DAYLIGHT) ∧
        ((s2.blobs 0).alive = true →
          ∃ ws ∈ s2.queue, ws.tgt = Target.sleepWake 0 ∧ ws.time = 720 + DAYLIGHT) ∧
        (∀ s3 t2 e2 rest2, Steps (fun _ => 1) s2 s3 →
          s3.queue = ⟨t2, e2, Target.sleepWake 0⟩ :: rest2 →
          (s3.blobs 0).isHunting = true → 720 + DAY ≤ t2) ∧
        ((s2.blobs 0).alive = true →
          ∀ s3, Steps (fun _ => 1) s2 s3 → 720 + DAYLIGHT < s3.time →
          ∃ u u2 e3 tail, Steps (fun _ => 1) s2 u ∧
            u.queue = ⟨720 + DAYLIGHT, e3, Target.sleepWake 0⟩ :: tail ∧
            (u.blobs 0).isHunting = false ∧
            step (fun _ => 1) u = some u2 ∧ u2.blobs 0 = u.blobs 0 ∧
            Steps (fun _ => 1) u2 s3))) :=
  ⟨_, rfl, c9_reset_once_per_day (fun _ => 1) c9State _ 0 ⟨720, 1, Target.sleepWake 0⟩
    [⟨730, 2, Target.huntForaged 0 0⟩] inv_c9State modeinv_c9State rfl rfl⟩

end BioSim
